import Mathlib

/-!
Verification of the GridBug parametric bin-assembly pipeline.

This file gives a shallow embedding of the core of the repository:
the grid-area calculator (src/utils/grid.ts), the spline utilities
(src/utils/spline.ts), the point transform (src/utils/geometry.ts), and
the replicad worker's model construction (the memoized worker file:
createCutoutExtrusion_, createWallsWithCutouts, createBaseUnit_,
createBottom, createBase_, createBin_, generateModel, exportSTEP).

JavaScript numbers are modelled as real numbers.  The solid-modelling
kernel (replicad / OpenCascade) is opaque in the source, so kernel
calls are embedded symbolically: drawings and solids are syntax trees
recording exactly the constructor calls the source makes, and a small
semantic function gives the vertical (Z) bounding extent of a solid.
-/

namespace GridBug

noncomputable section

/-- 2D point, from types.ts (`Point`). -/
structure Point where
  x : ℝ
  y : ℝ

instance : Inhabited Point := ⟨⟨0, 0⟩⟩

/-- geometry.ts `transformPoint`: rotate `point` about `position` by the
angle `rot` (the source field is named rotation) and keep the offset. -/
def transformPoint (point position : Point) (rot : ℝ) : Point :=
  let c := Real.cos rot
  let s := Real.sin rot
  let dx := point.x - position.x
  let dy := point.y - position.y
  ⟨dx * c - dy * s + position.x, dx * s + dy * c + position.y⟩

/-- grid.ts: the 42mm grid size. -/
def GRID_SIZE : ℝ := 42

/-- grid.ts: the 0.5mm tolerance for grid boundaries. -/
def TOLERANCE : ℝ := 0.5

/-- Minimum of a list of reals, modelling `Math.min(...xs)`.
The source only ever applies it to nonempty lists (JS would give
Infinity on an empty spread; we return 0 there). -/
def listMin : List ℝ → ℝ
  | [] => 0
  | x :: xs => xs.foldl min x

/-- Maximum of a list of reals, modelling `Math.max(...xs)` on nonempty
lists. -/
def listMax : List ℝ → ℝ
  | [] => 0
  | x :: xs => xs.foldl max x

/-- spline.ts `catmullToBezier`, inner helper `getT`:
`Math.pow(dx*dx + dy*dy, alpha * 0.5)` with `alpha = 0.5`. -/
def getT (p1 p2 : Point) : ℝ :=
  ((p2.x - p1.x) * (p2.x - p1.x) + (p2.y - p1.y) * (p2.y - p1.y)) ^ (0.25 : ℝ)

/-- spline.ts `catmullToBezier`: derive the two cubic-Bezier control
points between `p1` and `p2` of a centripetal Catmull-Rom window. -/
def catmullToBezier (p0 p1 p2 p3 : Point) : Point × Point :=
  let t0 : ℝ := 0
  let t1 := t0 + getT p0 p1
  let t2 := t1 + getT p1 p2
  let t3 := t2 + getT p2 p3
  let cp1 : Point := ⟨p1.x + (p2.x - p0.x) * (t2 - t1) / (t2 - t0) / 3,
                      p1.y + (p2.y - p0.y) * (t2 - t1) / (t2 - t0) / 3⟩
  let cp2 : Point := ⟨p2.x - (p3.x - p1.x) * (t2 - t1) / (t3 - t1) / 3,
                      p2.y - (p3.y - p1.y) * (t2 - t1) / (t3 - t1) / 3⟩
  (cp1, cp2)

/-- spline.ts `solveCubicDerivativeZeros`: roots of `a t² + b t + c`
inside `[0,1]`, with epsilon guards for the degenerate cases. -/
def solveCubicDerivativeZeros (a b c : ℝ) : List ℝ :=
  if |a| < 1e-6 then
    if |b| < 1e-6 then []
    else
      let t := -c / b
      if 0 ≤ t ∧ t ≤ 1 then [t] else []
  else
    let discriminant := b * b - 4 * a * c
    if discriminant < 0 then []
    else
      let sqrtDisc := Real.sqrt discriminant
      let t1 := (-b + sqrtDisc) / (2 * a)
      let t2 := (-b - sqrtDisc) / (2 * a)
      [t1, t2].filter fun t => decide (0 ≤ t ∧ t ≤ 1)

/-- spline.ts `evaluateCubicBezier` (one coordinate). -/
def evaluateCubicBezier (p0 p1 p2 p3 t : ℝ) : ℝ :=
  let mt := 1 - t
  mt * mt * mt * p0 + 3 * mt * mt * t * p1 + 3 * mt * t * t * p2 + t * t * t * p3

/-- The cyclic point list `[last, ...points, first, second]` used by
spline.ts and the worker to close the loop. -/
def allPointsOf (points : List Point) : List Point :=
  [points.getLastD default] ++ points ++ [points.getD 0 default, points.getD 1 default]

/-- The cyclic 4-point windows `(allPoints[i-1..i+2])` for
`i = 1 .. allPoints.length - 3`, shared by `calculateSplineBounds` and
the worker's spline sketch loop. -/
def windows (points : List Point) : List (Point × Point × Point × Point) :=
  let ap := allPointsOf points
  (List.range (ap.length - 3)).map fun k =>
    (ap.getD k default, ap.getD (k + 1) default, ap.getD (k + 2) default,
     ap.getD (k + 3) default)

/-- Coefficient of t² of the derivative of a cubic Bezier coordinate,
as computed in `calculateSplineBounds` (`ax`, `ay`). -/
def bezierCoeffA (p1c cp1c cp2c p2c : ℝ) : ℝ := 3 * (-p1c + 3 * cp1c - 3 * cp2c + p2c)

/-- Coefficient of t of the derivative (`bx`, `by`). -/
def bezierCoeffB (p1c cp1c cp2c : ℝ) : ℝ := 6 * (p1c - 2 * cp1c + cp2c)

/-- Constant coefficient of the derivative (`cx`, `cy`). -/
def bezierCoeffC (p1c cp1c : ℝ) : ℝ := 3 * (cp1c - p1c)

/-- The X extremum candidate values one window contributes in
`calculateSplineBounds`. -/
def windowExtremaX (w : Point × Point × Point × Point) : List ℝ :=
  let cps := catmullToBezier w.1 w.2.1 w.2.2.1 w.2.2.2
  (solveCubicDerivativeZeros
      (bezierCoeffA w.2.1.x cps.1.x cps.2.x w.2.2.1.x)
      (bezierCoeffB w.2.1.x cps.1.x cps.2.x)
      (bezierCoeffC w.2.1.x cps.1.x)).map
    fun t => evaluateCubicBezier w.2.1.x cps.1.x cps.2.x w.2.2.1.x t

/-- The Y extremum candidate values one window contributes. -/
def windowExtremaY (w : Point × Point × Point × Point) : List ℝ :=
  let cps := catmullToBezier w.1 w.2.1 w.2.2.1 w.2.2.2
  (solveCubicDerivativeZeros
      (bezierCoeffA w.2.1.y cps.1.y cps.2.y w.2.2.1.y)
      (bezierCoeffB w.2.1.y cps.1.y cps.2.y)
      (bezierCoeffC w.2.1.y cps.1.y)).map
    fun t => evaluateCubicBezier w.2.1.y cps.1.y cps.2.y w.2.2.1.y t

/-- Axis-aligned bounds record, from types.ts (`Bounds`). -/
structure Bounds where
  minX : ℝ
  minY : ℝ
  maxX : ℝ
  maxY : ℝ

instance : Inhabited Bounds := ⟨⟨0, 0, 0, 0⟩⟩

/-- spline.ts `calculateSplineBounds`: min/max accumulation (started at
±Infinity in the source, equivalently a fold over the nonempty candidate
list here) over the control points and the curve values at all derivative
roots reported by `solveCubicDerivativeZeros`. -/
def calculateSplineBounds (points : List Point) : Bounds :=
  let xs := points.map (·.x) ++ (windows points).flatMap windowExtremaX
  let ys := points.map (·.y) ++ (windows points).flatMap windowExtremaY
  ⟨listMin xs, listMin ys, listMax xs, listMax ys⟩

/-- Shape-specific part of an outline (types.ts tagged union:
SplineOutline with points, RoundedRectOutline with width/height/radius). -/
inductive OutlineShape where
  | spline (points : List Point)
  | roundedRect (width height radius : ℝ)

/-- An outline as consumed by the core (`ObjectData`, whose declaration
file is absent from the snapshot; fields follow spec §3 and every use in
the worker and grid.ts: id, position, rotation (field `rot` here), an
optional cutout depth, and the shape payload).  Display-only fields are
ignored by the core and omitted. -/
structure Outline where
  id : String
  position : Point
  rot : ℝ
  depth : Option ℝ
  shape : OutlineShape

instance : Inhabited Outline := ⟨⟨"", default, 0, none, .roundedRect 0 0 0⟩⟩

/-- grid.ts: the four corner-arc centers of a rounded rectangle in local
coordinates, inset from each corner by the radius. -/
def rectCornerCenters (width height radius : ℝ) : List Point :=
  let halfWidth := width / 2
  let halfHeight := height / 2
  [⟨-halfWidth + radius, -halfHeight + radius⟩,
   ⟨halfWidth - radius, -halfHeight + radius⟩,
   ⟨halfWidth - radius, halfHeight - radius⟩,
   ⟨-halfWidth + radius, halfHeight - radius⟩]

/-- grid.ts, rounded-rectangle branch of `calculateMinimalGridArea`:
bounds of the transformed corner-arc centers, expanded by the radius. -/
def roundedRectBounds (width height radius : ℝ) (position : Point) (rot : ℝ) : Bounds :=
  let transformedCenters := (rectCornerCenters width height radius).map
    fun c => transformPoint c position rot
  let cxs := transformedCenters.map (·.x)
  let cys := transformedCenters.map (·.y)
  ⟨listMin cxs - radius, listMin cys - radius, listMax cxs + radius, listMax cys + radius⟩

/-- The per-outline bounds computed inside `calculateMinimalGridArea`
(the `transformedBounds` map). -/
def outlineBounds (o : Outline) : Bounds :=
  match o.shape with
  | .spline pts => calculateSplineBounds (pts.map fun p => transformPoint p o.position o.rot)
  | .roundedRect w h r => roundedRectBounds w h r o.position o.rot

/-- The grid area `{min, max}` in millimetres. -/
structure GridArea where
  min : Point
  max : Point

/-- grid.ts `calculateMinimalGridArea`: default single cell for an empty
list, otherwise combine all outline bounds and snap outward to whole
grid multiples shrunk by half the tolerance. -/
def calculateMinimalGridArea (outlines : List Outline) : GridArea :=
  if outlines.length = 0 then
    ⟨⟨0, 0⟩, ⟨GRID_SIZE - TOLERANCE, GRID_SIZE - TOLERANCE⟩⟩
  else
    let bs := outlines.map outlineBounds
    let minx := listMin (bs.map (·.minX))
    let miny := listMin (bs.map (·.minY))
    let maxx := listMax (bs.map (·.maxX))
    let maxy := listMax (bs.map (·.maxY))
    ⟨⟨(⌊(minx - TOLERANCE / 2) / GRID_SIZE⌋ : ℝ) * GRID_SIZE + TOLERANCE / 2,
      (⌊(miny - TOLERANCE / 2) / GRID_SIZE⌋ : ℝ) * GRID_SIZE + TOLERANCE / 2⟩,
     ⟨(⌈(maxx + TOLERANCE / 2) / GRID_SIZE⌉ : ℝ) * GRID_SIZE - TOLERANCE / 2,
      (⌈(maxy + TOLERANCE / 2) / GRID_SIZE⌉ : ℝ) * GRID_SIZE - TOLERANCE / 2⟩⟩

/-! ## Symbolic embedding of the replicad kernel calls made by the worker -/

/-- A 2D drawing, recording the replicad drawing constructors the worker
invokes (`drawCircle`, `drawRoundedRectangle`, `draw`/`cubicBezierCurveTo`/
`close`, `.rotate` about the origin, `.translate`, `.offset`). -/
inductive Drawing where
  | circle (radius : ℝ)
  | roundedRectangle (width height radius : ℝ)
  | bezierSketch (start : Point) (segments : List (Point × Point × Point))
  | rotate (base : Drawing) (angle : ℝ)
  | translate (base : Drawing) (dx dy : ℝ)
  | offset (base : Drawing) (amount : ℝ)

/-- A solid, recording the kernel calls the worker makes
(`sketchOnPlane("XY", z).extrude(h)`, `loftWith`, `.translate`,
`.fuse`, `.cut`; `clone` is value-semantics and identity here). -/
inductive Solid where
  | extrusion (profile : Drawing) (zBase height : ℝ)
  | loft (sections : List (Drawing × ℝ)) (ruled : Bool)
  | translate (s : Solid) (dx dy dz : ℝ)
  | fuse (a b : Solid)
  | cut (a b : Solid)

/-- Lower end of a solid's vertical bounding extent.  An extrusion spans
from its sketch plane by its height; a loft spans its section heights;
`cut` keeps the blank's extent (a cut can only carve within the blank —
the worker's cutouts never enlarge the wall blank's box). -/
def Solid.zLo : Solid → ℝ
  | .extrusion _ zBase height => min zBase (zBase + height)
  | .loft sections _ => listMin (sections.map (·.2))
  | .translate s _ _ dz => s.zLo + dz
  | .fuse a b => min a.zLo b.zLo
  | .cut a _ => a.zLo

/-- Upper end of a solid's vertical bounding extent. -/
def Solid.zHi : Solid → ℝ
  | .extrusion _ zBase height => max zBase (zBase + height)
  | .loft sections _ => listMax (sections.map (·.2))
  | .translate s _ _ dz => s.zHi + dz
  | .fuse a b => max a.zHi b.zHi
  | .cut a _ => a.zHi

/-- A cutout extrusion: the worker extrudes `profile` upward from the
plane `z = zBase` by `height` (`sketchOnPlane("XY", zBase).extrude(height)`). -/
structure Extrusion where
  profile : Drawing
  zBase : ℝ
  height : ℝ

/-- The worker's spline sketch segments: one
`cubicBezierCurveTo([-p2.x, p2.y], [-cp1.x, cp1.y], [-cp2.x, cp2.y])`
per cyclic window, listed as (end, cp1, cp2). -/
def splineCutoutSegments (points : List Point) : List (Point × Point × Point) :=
  (windows points).map fun w =>
    let cps := catmullToBezier w.1 w.2.1 w.2.2.1 w.2.2.2
    (⟨-w.2.2.1.x, w.2.2.1.y⟩, ⟨-cps.1.x, cps.1.y⟩, ⟨-cps.2.x, cps.2.y⟩)

/-- The 2D cutout shape built by `createCutoutExtrusion_` before
extrusion: primitive or bezier sketch, rotated by `-rotation` about the
origin, translated to the position relative to the grid centre with the
X coordinate negated. -/
def cutoutDrawing (obj : Outline) (gmin gmax : Point) : Drawing :=
  let width := gmax.x - gmin.x
  let height := gmax.y - gmin.y
  match obj.shape with
  | .roundedRect w h r =>
    let rectX := -1 * (obj.position.x - gmin.x - width / 2)
    let rectY := obj.position.y - gmin.y - height / 2
    let rectShape := if r * 2 = w ∧ r * 2 = h then Drawing.circle r
                     else Drawing.roundedRectangle w h r
    Drawing.translate (Drawing.rotate rectShape (-obj.rot)) rectX rectY
  | .spline pts =>
    let splineX := -1 * (obj.position.x - gmin.x - width / 2)
    let splineY := obj.position.y - gmin.y - height / 2
    let startPoint := pts.getD 0 default
    let sketch := Drawing.bezierSketch ⟨-startPoint.x, startPoint.y⟩ (splineCutoutSegments pts)
    Drawing.translate (Drawing.rotate sketch (-obj.rot)) splineX splineY

/-- Worker `createCutoutExtrusion_`: build the outline's 2D shape, take
`desiredDepth = obj.depth || 20` (JS falsy: a missing or zero depth
becomes the 20mm default), limit it by the wall height, and extrude from
the plane `z = wallHeight - cutoutDepth` upward by `cutoutDepth`. -/
def createCutoutExtrusion (obj : Outline) (gmin gmax : Point) (wallHeight : ℝ) : Extrusion :=
  let shape := cutoutDrawing obj gmin gmax
  let desiredDepth : ℝ := match obj.depth with
    | none => 20
    | some d => if d = 0 then 20 else d
  let cutoutDepth := min desiredDepth wallHeight
  ⟨shape, wallHeight - cutoutDepth, cutoutDepth⟩

/-- View a cutout extrusion as a solid. -/
def Extrusion.toSolid (e : Extrusion) : Solid := Solid.extrusion e.profile e.zBase e.height

/-- Worker `createWallsWithCutouts`: extrude the wall blank from z = 0
(default sketch plane) by the wall height, then subtract every outline's
cutout extrusion in list order. -/
def createWallsWithCutouts (outlines : List Outline) (baseRect : Drawing)
    (gmin gmax : Point) (wallHeight : ℝ) : Solid :=
  outlines.foldl
    (fun acc obj => Solid.cut acc (createCutoutExtrusion obj gmin gmax wallHeight).toSolid)
    (Solid.extrusion baseRect 0 wallHeight)

/-- Worker `createBaseUnit_`: loft the outer rounded-rectangle profile
through two inward offsets across the four fixed heights counted down
from `baseHeight`. -/
def createBaseUnit (baseHeight outerDim cornerRadius : ℝ) : Solid :=
  let topProfile := Drawing.roundedRectangle outerDim outerDim cornerRadius
  let middleProfile := Drawing.offset topProfile (-2.15 / 2)
  let bottomProfile := Drawing.offset middleProfile (-0.8 / 2)
  let topHeight := baseHeight
  let middleHeight := topHeight - 2.15
  let flatHeight := middleHeight - 1.8
  let bottomHeight : ℝ := 0
  Solid.loft [(topProfile, topHeight), (middleProfile, middleHeight),
              (middleProfile, flatHeight), (bottomProfile, bottomHeight)] true

/-- Worker `createBottom`: the 1mm bottom plate extruded at `z = baseHeight`. -/
def createBottom (width height radius baseHeight : ℝ) : Solid :=
  Solid.extrusion (Drawing.roundedRectangle width height radius) baseHeight 1.0

/-- JavaScript `Math.round` (round half toward positive infinity). -/
def jsRound (x : ℝ) : ℤ := ⌊x + 1 / 2⌋

/-- Worker `createBase_`: tile counts from rounding the grid dimensions. -/
def baseNumUnitsX (width : ℝ) : ℤ := jsRound (width / GRID_SIZE)

/-- Worker `createBase_`: tile count along Y. -/
def baseNumUnitsY (height : ℝ) : ℤ := jsRound (height / GRID_SIZE)

/-- Worker `createBase_`: the translation applied to each base-unit
clone, row by row (`y` outer loop, `x` inner loop), starting from the
centred grid origin and stepping by the grid size. -/
def baseUnitPositions (width height : ℝ) : List (ℝ × ℝ) :=
  let outerDim := GRID_SIZE - TOLERANCE
  let startX := -width / 2 + outerDim / 2
  let startY := -height / 2 + outerDim / 2
  (List.range (baseNumUnitsY height).toNat).flatMap fun y =>
    (List.range (baseNumUnitsX width).toNat).map fun x =>
      (startX + x * GRID_SIZE, startY + y * GRID_SIZE)

/-- Worker `createBase_`: fuse one base-unit clone per grid position onto
the bottom plate. -/
def createBase (width height radius baseHeight : ℝ) : Solid :=
  let outerDim := GRID_SIZE - TOLERANCE
  let bottomModel := createBottom width height radius baseHeight
  let baseUnit := createBaseUnit baseHeight outerDim radius
  (baseUnitPositions width height).foldl
    (fun acc p => Solid.fuse acc (Solid.translate baseUnit p.1 p.2 0))
    bottomModel

/-- Worker `createBin_`: grid area, base assembly, wall assembly lifted
by `baseHeight + bottomThickness`, fused together. -/
def createBin (outlines : List Outline) (totalHeight : ℝ) (baseHeight : ℝ := 4.75) : Solid :=
  let ga := calculateMinimalGridArea outlines
  let width := ga.max.x - ga.min.x
  let height := ga.max.y - ga.min.y
  let BIN_CORNER_RADIUS : ℝ := 7.5 / 2
  let wallHeight := totalHeight - baseHeight - 1
  let bottomThickness : ℝ := 1.0
  let baseModel := createBase width height BIN_CORNER_RADIUS baseHeight
  let baseRect := Drawing.roundedRectangle width height BIN_CORNER_RADIUS
  let wallsModel := Solid.translate
    (createWallsWithCutouts outlines baseRect ga.min ga.max wallHeight)
    0 0 (baseHeight + bottomThickness)
  Solid.fuse baseModel wallsModel

/-- Mesh data returned by `generateModel` (`finalModel.mesh({tolerance:
0.05, angularTolerance: 30})` plus `meshEdges()`), kept symbolic. -/
structure MeshResult where
  solid : Solid
  tolerance : ℝ
  angularTolerance : ℝ

/-- Worker `generateModel`: `null` for an empty outline list, otherwise
the mesh of the assembled bin. -/
def generateModel (outlines : List Outline) (totalHeight : ℝ)
    (baseHeight : ℝ := 4.75) : Option MeshResult :=
  if outlines.length = 0 then none
  else some ⟨createBin outlines totalHeight baseHeight, 0.05, 30⟩

/-- A STEP export blob, kept symbolic (`model.blobSTEP()`). -/
structure StepBlob where
  solid : Solid

/-- Worker `exportSTEP`: an error for an empty outline list, otherwise
the STEP blob of the assembled bin. -/
def exportSTEP (outlines : List Outline) (totalHeight : ℝ)
    (baseHeight : ℝ := 4.75) : Except String StepBlob :=
  if outlines.length = 0 then Except.error "No outlines provided for STEP export"
  else Except.ok ⟨createBin outlines totalHeight baseHeight⟩

/-! ## Auxiliary definitions used by the statements -/

/-- Spec §3 data-model invariants maintained by the editing layer: a
spline has at least 3 control points, a rounded rectangle a nonnegative
corner radius. -/
def Outline.wf (o : Outline) : Prop :=
  match o.shape with
  | .spline pts => 3 ≤ pts.length
  | .roundedRect _ _ r => 0 ≤ r

/-- Replace only the depth field of an outline. -/
def Outline.withDepth (o : Outline) (d : Option ℝ) : Outline := { o with depth := d }

/-- The X-mirroring applied when a 2D point enters the 3D frame. -/
def mirrorX (p : Point) : Point := ⟨-p.x, p.y⟩

/-- Euclidean chord length between two control points. -/
def chordLength (p q : Point) : ℝ :=
  Real.sqrt ((q.x - p.x) * (q.x - p.x) + (q.y - p.y) * (q.y - p.y))

/-- X coordinate of the cubic segment a window contributes, at curve
parameter `t`. -/
def windowCurveX (w : Point × Point × Point × Point) (t : ℝ) : ℝ :=
  let cps := catmullToBezier w.1 w.2.1 w.2.2.1 w.2.2.2
  evaluateCubicBezier w.2.1.x cps.1.x cps.2.x w.2.2.1.x t

/-- Y coordinate of the cubic segment a window contributes. -/
def windowCurveY (w : Point × Point × Point × Point) (t : ℝ) : ℝ :=
  let cps := catmullToBezier w.1 w.2.1 w.2.2.1 w.2.2.2
  evaluateCubicBezier w.2.1.y cps.1.y cps.2.y w.2.2.1.y t

/-- The epsilon guards of `solveCubicDerivativeZeros` classify a
derivative coefficient as degenerate exactly when it is zero: a
coefficient below the 1e-6 threshold is exactly zero.  (With floating
point, a nonzero coefficient below the threshold would make the root
finder solve the wrong equation.) -/
def windowNondegenX (w : Point × Point × Point × Point) : Prop :=
  let cps := catmullToBezier w.1 w.2.1 w.2.2.1 w.2.2.2
  let a := bezierCoeffA w.2.1.x cps.1.x cps.2.x w.2.2.1.x
  let b := bezierCoeffB w.2.1.x cps.1.x cps.2.x
  (|a| < 1e-6 → a = 0) ∧ (|b| < 1e-6 → b = 0)

/-- Y-coordinate analogue of `windowNondegenX`. -/
def windowNondegenY (w : Point × Point × Point × Point) : Prop :=
  let cps := catmullToBezier w.1 w.2.1 w.2.2.1 w.2.2.2
  let a := bezierCoeffA w.2.1.y cps.1.y cps.2.y w.2.2.1.y
  let b := bezierCoeffB w.2.1.y cps.1.y cps.2.y
  (|a| < 1e-6 → a = 0) ∧ (|b| < 1e-6 → b = 0)

/-- Modelled from the spec (§4.1): the filled region of a rotated,
translated rounded rectangle (whose boundary is its outer silhouette) —
the Minkowski sum of the convex hull of the four corner-arc centers with
the closed disk of the corner radius, carried to world space by
`transformPoint`.  Membership is phrased with an explicit convex
combination of the four centers. -/
def roundedRectRegion (width height radius : ℝ) (position : Point) (rot : ℝ) : Set Point :=
  { q | ∃ l1 l2 l3 l4 : ℝ, 0 ≤ l1 ∧ 0 ≤ l2 ∧ 0 ≤ l3 ∧ 0 ≤ l4 ∧ l1 + l2 + l3 + l4 = 1 ∧
      ∃ dx dy : ℝ, dx ^ 2 + dy ^ 2 ≤ radius ^ 2 ∧
        q = (let cs := rectCornerCenters width height radius
             let c0 := cs.getD 0 default
             let c1 := cs.getD 1 default
             let c2 := cs.getD 2 default
             let c3 := cs.getD 3 default
             let k : Point := ⟨l1 * c0.x + l2 * c1.x + l3 * c2.x + l4 * c3.x,
                               l1 * c0.y + l2 * c1.y + l3 * c2.y + l4 * c3.y⟩
             let tk := transformPoint k position rot
             (⟨tk.x + dx, tk.y + dy⟩ : Point)) }

/-- The number of solids fused (in sequence, left to right) onto the
seed of a fold of `Solid.fuse`: the length of the left fuse spine. -/
def Solid.fuseCount : Solid → ℕ
  | .fuse a _ => a.fuseCount + 1
  | _ => 0

/-! ## Helper lemmas: list minima and maxima -/

theorem foldl_min_le_init (xs : List ℝ) (x : ℝ) : xs.foldl min x ≤ x := by
  induction xs generalizing x with
  | nil => simp
  | cons y ys ih => exact le_trans (ih (min x y)) (min_le_left _ _)

theorem foldl_min_le_of_mem (xs : List ℝ) (x a : ℝ) (h : a ∈ xs) : xs.foldl min x ≤ a := by
  induction xs generalizing x with
  | nil => cases h
  | cons y ys ih =>
    rcases List.mem_cons.1 h with rfl | h2
    · exact le_trans (foldl_min_le_init ys (min x a)) (min_le_right _ _)
    · exact ih (min x y) h2

theorem foldl_min_mem (xs : List ℝ) (x : ℝ) : xs.foldl min x = x ∨ xs.foldl min x ∈ xs := by
  induction xs generalizing x with
  | nil => left; rfl
  | cons y ys ih =>
    rcases ih (min x y) with hEq | hMem
    · rw [List.foldl_cons, hEq]
      rcases min_choice x y with h | h
      · left; exact h
      · right; rw [h]; exact List.mem_cons_self _ _
    · right; exact List.mem_cons_of_mem _ hMem

theorem init_le_foldl_max (xs : List ℝ) (x : ℝ) : x ≤ xs.foldl max x := by
  induction xs generalizing x with
  | nil => simp
  | cons y ys ih => exact le_trans (le_max_left _ _) (ih (max x y))

theorem le_foldl_max_of_mem (xs : List ℝ) (x a : ℝ) (h : a ∈ xs) : a ≤ xs.foldl max x := by
  induction xs generalizing x with
  | nil => cases h
  | cons y ys ih =>
    rcases List.mem_cons.1 h with rfl | h2
    · exact le_trans (le_max_right _ _) (init_le_foldl_max ys (max x a))
    · exact ih (max x y) h2

theorem foldl_max_mem (xs : List ℝ) (x : ℝ) : xs.foldl max x = x ∨ xs.foldl max x ∈ xs := by
  induction xs generalizing x with
  | nil => left; rfl
  | cons y ys ih =>
    rcases ih (max x y) with hEq | hMem
    · rw [List.foldl_cons, hEq]
      rcases max_choice x y with h | h
      · left; exact h
      · right; rw [h]; exact List.mem_cons_self _ _
    · right; exact List.mem_cons_of_mem _ hMem

theorem listMin_le_of_mem {l : List ℝ} {a : ℝ} (h : a ∈ l) : listMin l ≤ a := by
  cases l with
  | nil => cases h
  | cons x xs =>
    rcases List.mem_cons.1 h with rfl | h2
    · exact foldl_min_le_init xs a
    · exact foldl_min_le_of_mem xs x a h2

theorem le_listMax_of_mem {l : List ℝ} {a : ℝ} (h : a ∈ l) : a ≤ listMax l := by
  cases l with
  | nil => cases h
  | cons x xs =>
    rcases List.mem_cons.1 h with rfl | h2
    · exact init_le_foldl_max xs a
    · exact le_foldl_max_of_mem xs x a h2

theorem listMin_mem {l : List ℝ} (h : l ≠ []) : listMin l ∈ l := by
  cases l with
  | nil => exact absurd rfl h
  | cons x xs =>
    rcases foldl_min_mem xs x with hEq | hMem
    · rw [listMin, hEq]; exact List.mem_cons_self _ _
    · exact List.mem_cons_of_mem _ hMem

theorem listMax_mem {l : List ℝ} (h : l ≠ []) : listMax l ∈ l := by
  cases l with
  | nil => exact absurd rfl h
  | cons x xs =>
    rcases foldl_max_mem xs x with hEq | hMem
    · rw [listMax, hEq]; exact List.mem_cons_self _ _
    · exact List.mem_cons_of_mem _ hMem

theorem listMin_le_listMax {l : List ℝ} (h : l ≠ []) : listMin l ≤ listMax l :=
  le_listMax_of_mem (listMin_mem h)

/-! ## Helper lemmas: folds of fuse -/

theorem fuseCount_foldl {α : Type} (l : List α) (f : α → Solid) (seed : Solid) :
    (l.foldl (fun acc p => Solid.fuse acc (f p)) seed).fuseCount =
      seed.fuseCount + l.length := by
  induction l generalizing seed with
  | nil => simp
  | cons p ps ih =>
    rw [List.foldl_cons, ih]
    simp [Solid.fuseCount]
    omega

/-! ## Claim theorems -/

/-- C3: for every totalHeight and baseHeight, `generateModel` on an empty
outline list returns null (no model is constructed), and `exportSTEP` on an
empty outline list fails with an error; neither produces a partial model. -/
theorem empty_outlines_no_model :
    ∀ totalHeight baseHeight : ℝ,
      generateModel [] totalHeight baseHeight = none ∧
      exportSTEP [] totalHeight baseHeight =
        Except.error "No outlines provided for STEP export" := by
  intro totalHeight baseHeight
  exact ⟨by simp [generateModel], by simp [exportSTEP]⟩

/-- C10: an outline whose depth is undefined or 0 (any falsy value) gets the
default desired depth of 20mm before limiting by the wall height, so its
cutout is extruded `min 20 wallHeight` deep (from `wallHeight - min 20
wallHeight` up to the wall top), rather than producing no cutout. -/
theorem createCutoutExtrusion_falsy_depth_default (obj : Outline) (gmin gmax : Point)
    (wallHeight : ℝ) (h : obj.depth = none ∨ obj.depth = some 0) :
    (createCutoutExtrusion obj gmin gmax wallHeight).height = min 20 wallHeight ∧
    (createCutoutExtrusion obj gmin gmax wallHeight).zBase =
      wallHeight - min 20 wallHeight := by
  rcases h with h | h <;> simp [createCutoutExtrusion, h]

/-- Witness for C10 at a concrete outline with undefined depth and wall
height 30. -/
theorem createCutoutExtrusion_falsy_depth_default_witness :
    (createCutoutExtrusion ⟨"o1", ⟨0, 0⟩, 0, none, .roundedRect 10 10 2⟩
       ⟨0, 0⟩ ⟨41.5, 41.5⟩ 30).height = min 20 30 ∧
    (createCutoutExtrusion ⟨"o1", ⟨0, 0⟩, 0, none, .roundedRect 10 10 2⟩
       ⟨0, 0⟩ ⟨41.5, 41.5⟩ 30).zBase = 30 - min 20 30 :=
  createCutoutExtrusion_falsy_depth_default _ _ _ 30 (Or.inl rfl)

/-- C2 counterexample: at depth 0 with wall height 30, the claim predicts a
zero-depth cutout (0 clamped to [0, 30] is 0), but the code substitutes the
20mm default: the extrusion height is 20, not 0. -/
theorem c2_depth_zero_not_clamped :
    (createCutoutExtrusion ⟨"o1", ⟨0, 0⟩, 0, some 0, .roundedRect 10 10 2⟩
       ⟨0, 0⟩ ⟨41.5, 41.5⟩ 30).height = 20 ∧
    (createCutoutExtrusion ⟨"o1", ⟨0, 0⟩, 0, some 0, .roundedRect 10 10 2⟩
       ⟨0, 0⟩ ⟨41.5, 41.5⟩ 30).height ≠ 0 := by
  constructor
  · norm_num [createCutoutExtrusion]
  · norm_num [createCutoutExtrusion]

/-- C2 (amended): for every outline whose depth is defined and nonzero, the
cutout extrusion occupies exactly the Z-range `[wallHeight - d, wallHeight]`
where `d = min depth wallHeight` (the depth limited above by the wall
height): it starts at the wall's top face and extends downward, a depth
greater than wallHeight being silently reduced to wallHeight, never an
error.  (A depth of 0 — or a missing depth — is first replaced by the 20mm
default, see C10; there is no lower clamp at 0.) -/
theorem createCutoutExtrusion_zRange (obj : Outline) (gmin gmax : Point)
    (wallHeight dv : ℝ) (hd : obj.depth = some dv) (h0 : dv ≠ 0) :
    (createCutoutExtrusion obj gmin gmax wallHeight).zBase =
      wallHeight - min dv wallHeight ∧
    (createCutoutExtrusion obj gmin gmax wallHeight).zBase +
      (createCutoutExtrusion obj gmin gmax wallHeight).height = wallHeight := by
  refine ⟨by simp [createCutoutExtrusion, hd, h0], ?_⟩
  simp [createCutoutExtrusion, hd, h0]

/-- Witness for the amended C2: a 50mm requested depth in a 30mm wall is
silently reduced to the full wall depth. -/
theorem createCutoutExtrusion_zRange_witness :
    (createCutoutExtrusion ⟨"o1", ⟨0, 0⟩, 0, some 50, .roundedRect 10 10 2⟩
       ⟨0, 0⟩ ⟨41.5, 41.5⟩ 30).zBase = 30 - min 50 30 ∧
    (createCutoutExtrusion ⟨"o1", ⟨0, 0⟩, 0, some 50, .roundedRect 10 10 2⟩
       ⟨0, 0⟩ ⟨41.5, 41.5⟩ 30).zBase +
      (createCutoutExtrusion ⟨"o1", ⟨0, 0⟩, 0, some 50, .roundedRect 10 10 2⟩
       ⟨0, 0⟩ ⟨41.5, 41.5⟩ 30).height = 30 :=
  createCutoutExtrusion_zRange _ _ _ 30 50 rfl (by norm_num)

/-- C8: `createBase_` computes tile counts by rounding the grid dimensions
by the 42mm cell, fuses exactly `numUnitsX * numUnitsY` base-unit clones
onto the bottom plate, and places the tile centres starting at
`-width/2 + 41.5/2` (likewise for Y) stepping by 42mm; for dimensions that
are exact whole multiples `k*42` and `j*42` of the cell size the counts are
exactly `k` and `j`, with no off-by-one. -/
theorem createBase_tiling (width height radius baseHeight : ℝ) (k j : ℕ)
    (hw : width = (k : ℝ) * GRID_SIZE) (hh : height = (j : ℝ) * GRID_SIZE) :
    baseNumUnitsX width = k ∧ baseNumUnitsY height = j ∧
    (createBase width height radius baseHeight).fuseCount = k * j ∧
    baseUnitPositions width height =
      (List.range j).flatMap (fun y => (List.range k).map fun x =>
        (-width / 2 + (GRID_SIZE - TOLERANCE) / 2 + x * GRID_SIZE,
         -height / 2 + (GRID_SIZE - TOLERANCE) / 2 + y * GRID_SIZE)) := by
  have hG : (GRID_SIZE : ℝ) ≠ 0 := by norm_num [GRID_SIZE]
  have hx : baseNumUnitsX width = k := by
    rw [baseNumUnitsX, jsRound, hw]
    rw [mul_div_assoc, div_self hG, mul_one]
    rw [Int.floor_eq_iff]
    constructor
    · push_cast; linarith
    · push_cast; linarith
  have hy : baseNumUnitsY height = j := by
    rw [baseNumUnitsY, jsRound, hh]
    rw [mul_div_assoc, div_self hG, mul_one]
    rw [Int.floor_eq_iff]
    constructor
    · push_cast; linarith
    · push_cast; linarith
  have hpos : baseUnitPositions width height =
      (List.range j).flatMap (fun y => (List.range k).map fun x =>
        (-width / 2 + (GRID_SIZE - TOLERANCE) / 2 + x * GRID_SIZE,
         -height / 2 + (GRID_SIZE - TOLERANCE) / 2 + y * GRID_SIZE)) := by
    rw [baseUnitPositions, hx, hy]
    simp only [Int.toNat_natCast]
  have hlen : (baseUnitPositions width height).length = k * j := by
    rw [hpos, List.length_flatMap]
    simp only [Function.comp_def, List.length_map, List.length_flatMap,
      List.length_cons, List.length_nil]
    simp [Function.comp_def, List.map_const, mul_comm]
  refine ⟨hx, hy, ?_, hpos⟩
  rw [createBase, fuseCount_foldl, hlen]
  simp [createBottom, Solid.fuseCount]

/-- Helper: setting an index back to its own value is the identity. -/
theorem set_getD_self {α : Type} [Inhabited α] (l : List α) (i : ℕ) (h : i < l.length) :
    l.set i (l.getD i default) = l := by
  have h2 : l.getD i default = l[i] := List.getD_eq_getElem l default h
  rw [h2]
  exact List.ext_getElem (by simp) (fun n h1 h2 => by
    rcases eq_or_ne i n with rfl | hne
    · simp
    · simp [List.getElem_set_ne hne])

/-- Helper: the per-outline bounds ignore the depth field. -/
theorem outlineBounds_withDepth (o : Outline) (d : Option ℝ) :
    outlineBounds (o.withDepth d) = outlineBounds o := rfl

/-- Helper: the grid area only depends on the outline count and the
per-outline bounds. -/
theorem gridArea_congr {l1 l2 : List Outline} (hlen : l2.length = l1.length)
    (hmap : l2.map outlineBounds = l1.map outlineBounds) :
    calculateMinimalGridArea l2 = calculateMinimalGridArea l1 := by
  rw [calculateMinimalGridArea, calculateMinimalGridArea, hlen, hmap]

/-- C9: changing only one outline's depth changes neither the returned grid
area, nor the base solid (whose arguments do not mention depth), nor any
other outline's cutout extrusion — an outline's depth influences only its
own cutout. -/
theorem depth_changes_only_own_cutout (l l2 : List Outline) (i : ℕ) (d : Option ℝ)
    (radius baseHeight wallHeight : ℝ) (hi : i < l.length)
    (hl2 : l2 = l.set i ((l.getD i default).withDepth d)) :
    calculateMinimalGridArea l2 = calculateMinimalGridArea l ∧
    createBase ((calculateMinimalGridArea l2).max.x - (calculateMinimalGridArea l2).min.x)
        ((calculateMinimalGridArea l2).max.y - (calculateMinimalGridArea l2).min.y)
        radius baseHeight =
      createBase ((calculateMinimalGridArea l).max.x - (calculateMinimalGridArea l).min.x)
        ((calculateMinimalGridArea l).max.y - (calculateMinimalGridArea l).min.y)
        radius baseHeight ∧
    ∀ j : ℕ, j ≠ i →
      createCutoutExtrusion (l2.getD j default) (calculateMinimalGridArea l2).min
          (calculateMinimalGridArea l2).max wallHeight =
        createCutoutExtrusion (l.getD j default) (calculateMinimalGridArea l).min
          (calculateMinimalGridArea l).max wallHeight := by
  have hlen : l2.length = l.length := by rw [hl2]; simp
  have hmap : l2.map outlineBounds = l.map outlineBounds := by
    rw [hl2, List.map_set, outlineBounds_withDepth]
    rw [show outlineBounds (l.getD i default) = (l.map outlineBounds).getD i default by
      rw [List.getD_eq_getElem l default hi,
        List.getD_eq_getElem (l.map outlineBounds) default (by simpa using hi)]
      simp]
    exact set_getD_self (l.map outlineBounds) i (by simpa using hi)
  have harea : calculateMinimalGridArea l2 = calculateMinimalGridArea l :=
    gridArea_congr hlen hmap
  refine ⟨harea, by rw [harea], ?_⟩
  intro j hj
  rw [harea, hl2]
  congr 1
  simp [List.getD_eq_getElem?_getD, List.getElem?_set_ne (Ne.symm hj)]

/-- Witness for C9: a two-element list with the depth changed at index 0
leaves the grid area unchanged. -/
theorem depth_changes_only_own_cutout_witness :
    calculateMinimalGridArea
        ([(⟨"o1", ⟨0, 0⟩, 0, some 10, .roundedRect 10 10 2⟩ : Outline),
          ⟨"o2", ⟨50, 0⟩, 0, some 8, .roundedRect 20 20 4⟩].set 0
          (([(⟨"o1", ⟨0, 0⟩, 0, some 10, .roundedRect 10 10 2⟩ : Outline),
             ⟨"o2", ⟨50, 0⟩, 0, some 8, .roundedRect 20 20 4⟩].getD 0
            default).withDepth (some 5))) =
      calculateMinimalGridArea
        [(⟨"o1", ⟨0, 0⟩, 0, some 10, .roundedRect 10 10 2⟩ : Outline),
         ⟨"o2", ⟨50, 0⟩, 0, some 8, .roundedRect 20 20 4⟩] :=
  (depth_changes_only_own_cutout
    [⟨"o1", ⟨0, 0⟩, 0, some 10, .roundedRect 10 10 2⟩,
     ⟨"o2", ⟨50, 0⟩, 0, some 8, .roundedRect 20 20 4⟩]
    ([(⟨"o1", ⟨0, 0⟩, 0, some 10, .roundedRect 10 10 2⟩ : Outline),
      ⟨"o2", ⟨50, 0⟩, 0, some 8, .roundedRect 20 20 4⟩].set 0
      (([(⟨"o1", ⟨0, 0⟩, 0, some 10, .roundedRect 10 10 2⟩ : Outline),
         ⟨"o2", ⟨50, 0⟩, 0, some 8, .roundedRect 20 20 4⟩].getD 0
        default).withDepth (some 5)))
    0 (some 5) 3.75 4.75 14.25 (by norm_num) rfl).1

/-- Witness for C8 on an 84mm by 42mm grid area: a 2 by 1 tiling. -/
theorem createBase_tiling_witness :
    baseNumUnitsX 84 = (2 : ℕ) ∧ baseNumUnitsY 42 = (1 : ℕ) ∧
    (createBase 84 42 3.75 4.75).fuseCount = 2 * 1 ∧
    baseUnitPositions 84 42 =
      (List.range 1).flatMap (fun y => (List.range 2).map fun x =>
        (-(84 : ℝ) / 2 + (GRID_SIZE - TOLERANCE) / 2 + x * GRID_SIZE,
         -(42 : ℝ) / 2 + (GRID_SIZE - TOLERANCE) / 2 + y * GRID_SIZE)) :=
  createBase_tiling 84 42 3.75 4.75 2 1 (by norm_num [GRID_SIZE])
    (by norm_num [GRID_SIZE])

/-! ## Grid-area dimension lemmas (C1, shared with C4) -/

/-- Helper: spline bounds of a nonempty point list are ordered. -/
theorem calculateSplineBounds_le (pts : List Point) (h : pts ≠ []) :
    (calculateSplineBounds pts).minX ≤ (calculateSplineBounds pts).maxX ∧
    (calculateSplineBounds pts).minY ≤ (calculateSplineBounds pts).maxY := by
  have hx : (pts.map (·.x) ++ (windows pts).flatMap windowExtremaX) ≠ [] := by
    simp [h]
  have hy : (pts.map (·.y) ++ (windows pts).flatMap windowExtremaY) ≠ [] := by
    simp [h]
  exact ⟨listMin_le_listMax hx, listMin_le_listMax hy⟩

/-- Helper: rounded-rectangle bounds with a nonnegative radius are ordered. -/
theorem roundedRectBounds_le (w h r : ℝ) (pos : Point) (rot : ℝ) (hr : 0 ≤ r) :
    (roundedRectBounds w h r pos rot).minX ≤ (roundedRectBounds w h r pos rot).maxX ∧
    (roundedRectBounds w h r pos rot).minY ≤ (roundedRectBounds w h r pos rot).maxY := by
  have hne : ((rectCornerCenters w h r).map fun c => transformPoint c pos rot) ≠ [] := by
    simp [rectCornerCenters]
  have hxs := listMin_le_listMax (l :=
    (((rectCornerCenters w h r).map fun c => transformPoint c pos rot).map (·.x)))
    (by simp [rectCornerCenters])
  have hys := listMin_le_listMax (l :=
    (((rectCornerCenters w h r).map fun c => transformPoint c pos rot).map (·.y)))
    (by simp [rectCornerCenters])
  constructor <;> · simp only [roundedRectBounds]; linarith

/-- Helper: any well-formed outline has ordered bounds. -/
theorem outlineBounds_le (o : Outline) (hwf : o.wf) :
    (outlineBounds o).minX ≤ (outlineBounds o).maxX ∧
    (outlineBounds o).minY ≤ (outlineBounds o).maxY := by
  rcases o with ⟨oid, pos, rot, depth, shape⟩
  cases shape with
  | spline pts =>
    have hne : pts.map (fun p => transformPoint p pos rot) ≠ [] := by
      have : 3 ≤ pts.length := hwf
      cases pts with
      | nil => simp at this
      | cons a as => simp
    simpa [outlineBounds] using calculateSplineBounds_le _ hne
  | roundedRect w h r =>
    have hr : 0 ≤ r := hwf
    simpa [outlineBounds] using roundedRectBounds_le w h r pos rot hr

/-- Helper: the combined raw bounds of a nonempty well-formed outline list
are ordered. -/
theorem combined_bounds_le (outlines : List Outline) (hne : outlines ≠ [])
    (hwf : ∀ o ∈ outlines, o.wf) :
    listMin ((outlines.map outlineBounds).map (·.minX)) ≤
      listMax ((outlines.map outlineBounds).map (·.maxX)) ∧
    listMin ((outlines.map outlineBounds).map (·.minY)) ≤
      listMax ((outlines.map outlineBounds).map (·.maxY)) := by
  constructor
  · have hmem : listMin ((outlines.map outlineBounds).map (·.minX)) ∈
        (outlines.map outlineBounds).map (·.minX) :=
      listMin_mem (by simp [hne])
    rcases List.mem_map.1 hmem with ⟨b, hb, hbx⟩
    rcases List.mem_map.1 hb with ⟨o, ho, hob⟩
    have h1 : b.minX ≤ b.maxX := by
      rw [← hob]; exact (outlineBounds_le o (hwf o ho)).1
    have h2 : b.maxX ≤ listMax ((outlines.map outlineBounds).map (·.maxX)) :=
      le_listMax_of_mem (List.mem_map.2 ⟨b, hb, rfl⟩)
    linarith [hbx ▸ (le_trans h1 h2)]
  · have hmem : listMin ((outlines.map outlineBounds).map (·.minY)) ∈
        (outlines.map outlineBounds).map (·.minY) :=
      listMin_mem (by simp [hne])
    rcases List.mem_map.1 hmem with ⟨b, hb, hby⟩
    rcases List.mem_map.1 hb with ⟨o, ho, hob⟩
    have h1 : b.minY ≤ b.maxY := by
      rw [← hob]; exact (outlineBounds_le o (hwf o ho)).2
    have h2 : b.maxY ≤ listMax ((outlines.map outlineBounds).map (·.maxY)) :=
      le_listMax_of_mem (List.mem_map.2 ⟨b, hb, rfl⟩)
    linarith [hby ▸ (le_trans h1 h2)]

/-- Helper: one axis of the outward snap: the snapped interval spans a
positive whole number of grid cells minus the tolerance. -/
theorem snap_axis (lo hi : ℝ) (hle : lo ≤ hi) :
    ∃ k : ℤ, 1 ≤ k ∧
      ((⌈(hi + TOLERANCE / 2) / GRID_SIZE⌉ : ℝ) * GRID_SIZE - TOLERANCE / 2) -
        ((⌊(lo - TOLERANCE / 2) / GRID_SIZE⌋ : ℝ) * GRID_SIZE + TOLERANCE / 2) =
      k * GRID_SIZE - TOLERANCE := by
  refine ⟨⌈(hi + TOLERANCE / 2) / GRID_SIZE⌉ - ⌊(lo - TOLERANCE / 2) / GRID_SIZE⌋, ?_, ?_⟩
  · have h42 : (0 : ℝ) < GRID_SIZE := by norm_num [GRID_SIZE]
    have hnum : lo - TOLERANCE / 2 < hi + TOLERANCE / 2 := by
      rw [TOLERANCE]; linarith
    have hlt : (lo - TOLERANCE / 2) / GRID_SIZE < (hi + TOLERANCE / 2) / GRID_SIZE :=
      (div_lt_div_iff_of_pos_right h42).2 hnum
    have hfloor : ⌊(lo - TOLERANCE / 2) / GRID_SIZE⌋ < ⌈(hi + TOLERANCE / 2) / GRID_SIZE⌉ := by
      rw [Int.lt_ceil]
      exact lt_of_le_of_lt (Int.floor_le _) hlt
    omega
  · push_cast
    rw [TOLERANCE]
    ring

/-- Helper: the grid-area dimensions are whole positive multiples of the
grid size minus the tolerance, for any well-formed outline list. -/
theorem gridArea_dims (outlines : List Outline) (hwf : ∀ o ∈ outlines, o.wf) :
    ∃ kx ky : ℤ, 1 ≤ kx ∧ 1 ≤ ky ∧
      (calculateMinimalGridArea outlines).max.x - (calculateMinimalGridArea outlines).min.x =
        kx * GRID_SIZE - TOLERANCE ∧
      (calculateMinimalGridArea outlines).max.y - (calculateMinimalGridArea outlines).min.y =
        ky * GRID_SIZE - TOLERANCE := by
  by_cases hne : outlines = []
  · subst hne
    refine ⟨1, 1, le_refl 1, le_refl 1, ?_, ?_⟩ <;>
      norm_num [calculateMinimalGridArea, GRID_SIZE, TOLERANCE]
  · have hc := combined_bounds_le outlines hne hwf
    obtain ⟨kx, hkx1, hkx2⟩ := snap_axis _ _ hc.1
    obtain ⟨ky, hky1, hky2⟩ := snap_axis _ _ hc.2
    have h0 : ¬ outlines.length = 0 := by simpa using hne
    refine ⟨kx, ky, hkx1, hky1, ?_, ?_⟩
    · rw [calculateMinimalGridArea, if_neg h0]
      exact hkx2
    · rw [calculateMinimalGridArea, if_neg h0]
      exact hky2

/-- C1: for every well-formed list of outlines, `calculateMinimalGridArea`
returns a grid area with max ≥ min on both axes whose dimensions each equal
`k * GRID_SIZE - TOLERANCE` for some positive integer k (a whole multiple
of the 42mm cell shrunk by half the 0.5mm tolerance on each side); for the
empty list it returns the single default cell `{min: (0,0), max: (41.5,
41.5)}`. -/
theorem calculateMinimalGridArea_cells (outlines : List Outline)
    (hwf : ∀ o ∈ outlines, o.wf) :
    calculateMinimalGridArea [] = ⟨⟨0, 0⟩, ⟨41.5, 41.5⟩⟩ ∧
    ∃ kx ky : ℤ, 1 ≤ kx ∧ 1 ≤ ky ∧
      (calculateMinimalGridArea outlines).max.x - (calculateMinimalGridArea outlines).min.x =
        kx * GRID_SIZE - TOLERANCE ∧
      (calculateMinimalGridArea outlines).max.y - (calculateMinimalGridArea outlines).min.y =
        ky * GRID_SIZE - TOLERANCE ∧
      (calculateMinimalGridArea outlines).min.x ≤ (calculateMinimalGridArea outlines).max.x ∧
      (calculateMinimalGridArea outlines).min.y ≤ (calculateMinimalGridArea outlines).max.y := by
  constructor
  · norm_num [calculateMinimalGridArea, GRID_SIZE, TOLERANCE]
  · obtain ⟨kx, ky, h1, h2, h3, h4⟩ := gridArea_dims outlines hwf
    refine ⟨kx, ky, h1, h2, h3, h4, ?_, ?_⟩
    · have h1R : (1 : ℝ) ≤ (kx : ℝ) := by exact_mod_cast h1
      rw [GRID_SIZE, TOLERANCE] at h3
      nlinarith
    · have h2R : (1 : ℝ) ≤ (ky : ℝ) := by exact_mod_cast h2
      rw [GRID_SIZE, TOLERANCE] at h4
      nlinarith

/-- Witness for C1 at a single rotated-free rounded rectangle. -/
theorem calculateMinimalGridArea_cells_witness :
    calculateMinimalGridArea [] = ⟨⟨0, 0⟩, ⟨41.5, 41.5⟩⟩ ∧
    ∃ kx ky : ℤ, 1 ≤ kx ∧ 1 ≤ ky ∧
      (calculateMinimalGridArea
          [(⟨"o1", ⟨0, 0⟩, 0, some 10, .roundedRect 10 10 2⟩ : Outline)]).max.x -
        (calculateMinimalGridArea
          [(⟨"o1", ⟨0, 0⟩, 0, some 10, .roundedRect 10 10 2⟩ : Outline)]).min.x =
        kx * GRID_SIZE - TOLERANCE ∧
      (calculateMinimalGridArea
          [(⟨"o1", ⟨0, 0⟩, 0, some 10, .roundedRect 10 10 2⟩ : Outline)]).max.y -
        (calculateMinimalGridArea
          [(⟨"o1", ⟨0, 0⟩, 0, some 10, .roundedRect 10 10 2⟩ : Outline)]).min.y =
        ky * GRID_SIZE - TOLERANCE ∧
      (calculateMinimalGridArea
          [(⟨"o1", ⟨0, 0⟩, 0, some 10, .roundedRect 10 10 2⟩ : Outline)]).min.x ≤
        (calculateMinimalGridArea
          [(⟨"o1", ⟨0, 0⟩, 0, some 10, .roundedRect 10 10 2⟩ : Outline)]).max.x ∧
      (calculateMinimalGridArea
          [(⟨"o1", ⟨0, 0⟩, 0, some 10, .roundedRect 10 10 2⟩ : Outline)]).min.y ≤
        (calculateMinimalGridArea
          [(⟨"o1", ⟨0, 0⟩, 0, some 10, .roundedRect 10 10 2⟩ : Outline)]).max.y :=
  calculateMinimalGridArea_cells [⟨"o1", ⟨0, 0⟩, 0, some 10, .roundedRect 10 10 2⟩]
    (by
      intro o ho
      simp only [List.mem_singleton] at ho
      subst ho
      norm_num [Outline.wf])

/-! ## Z-extent lemmas for the assembled bin (C4) -/

/-- Helper: cutting never changes the blank's recorded extent, so the
fold of cuts in `createWallsWithCutouts` keeps the wall blank's. -/
theorem cut_fold_zLo {α : Type} (l : List α) (f : α → Solid) (seed : Solid) :
    (l.foldl (fun acc o => Solid.cut acc (f o)) seed).zLo = seed.zLo := by
  induction l generalizing seed with
  | nil => rfl
  | cons o os ih => rw [List.foldl_cons, ih]; rfl

/-- Helper: upper-extent analogue of `cut_fold_zLo`. -/
theorem cut_fold_zHi {α : Type} (l : List α) (f : α → Solid) (seed : Solid) :
    (l.foldl (fun acc o => Solid.cut acc (f o)) seed).zHi = seed.zHi := by
  induction l generalizing seed with
  | nil => rfl
  | cons o os ih => rw [List.foldl_cons, ih]; rfl

/-- Helper: fusing at least one unit clone (translated only horizontally)
onto a seed gives the minimum of the two extents. -/
theorem base_fold_zLo (l : List (ℝ × ℝ)) (unit seed : Solid) (hl : l ≠ []) :
    (l.foldl (fun acc p => Solid.fuse acc (Solid.translate unit p.1 p.2 0)) seed).zLo
      = min seed.zLo unit.zLo := by
  induction l generalizing seed with
  | nil => exact absurd rfl hl
  | cons p ps ih =>
    rw [List.foldl_cons]
    by_cases hps : ps = []
    · subst hps
      simp [Solid.zLo]
    · rw [ih _ hps]
      simp [Solid.zLo, min_assoc]

/-- Helper: upper-extent analogue of `base_fold_zLo`. -/
theorem base_fold_zHi (l : List (ℝ × ℝ)) (unit seed : Solid) (hl : l ≠ []) :
    (l.foldl (fun acc p => Solid.fuse acc (Solid.translate unit p.1 p.2 0)) seed).zHi
      = max seed.zHi unit.zHi := by
  induction l generalizing seed with
  | nil => exact absurd rfl hl
  | cons p ps ih =>
    rw [List.foldl_cons]
    by_cases hps : ps = []
    · subst hps
      simp [Solid.zHi]
    · rw [ih _ hps]
      simp [Solid.zHi, max_assoc]

/-- Helper: the base unit loft spans `[0, baseHeight]` once the base is at
least as tall as its 3.95mm of bevel steps. -/
theorem createBaseUnit_extent (bh od r : ℝ) (hbh : 3.95 ≤ bh) :
    (createBaseUnit bh od r).zLo = 0 ∧ (createBaseUnit bh od r).zHi = bh := by
  constructor
  · show listMin [bh, bh - 2.15, bh - 2.15 - 1.8, (0 : ℝ)] = 0
    show min (min (min bh (bh - 2.15)) (bh - 2.15 - 1.8)) 0 = 0
    rw [min_eq_right]
    refine le_min (le_min ?_ ?_) ?_ <;> linarith
  · show listMax [bh, bh - 2.15, bh - 2.15 - 1.8, (0 : ℝ)] = bh
    show max (max (max bh (bh - 2.15)) (bh - 2.15 - 1.8)) 0 = bh
    rw [max_eq_left (a := bh) (by linarith)]
    rw [max_eq_left (a := bh) (by linarith)]
    rw [max_eq_left (a := bh) (by linarith)]

/-- Helper: `jsRound` recovers the whole-cell count from a snapped grid
dimension `k * GRID_SIZE - TOLERANCE`. -/
theorem jsRound_gridDim (k : ℤ) :
    jsRound (((k : ℝ) * GRID_SIZE - TOLERANCE) / GRID_SIZE) = k := by
  rw [jsRound, GRID_SIZE, TOLERANCE]
  have harith : ((k : ℝ) * 42 - 0.5) / 42 + 1 / 2 = (k : ℝ) + 41 / 84 := by ring
  rw [harith, Int.floor_eq_iff]
  constructor
  · linarith
  · linarith

/-- Helper: number of base-unit positions. -/
theorem baseUnitPositions_length (w h : ℝ) :
    (baseUnitPositions w h).length =
      (baseNumUnitsX w).toNat * (baseNumUnitsY h).toNat := by
  rw [baseUnitPositions, List.length_flatMap]
  simp only [Function.comp_def, List.length_map, List.length_flatMap,
    List.length_cons, List.length_nil, List.length_range]
  simp [Function.comp_def, List.map_const, mul_comm]

/-- Helper: the assembled base (plate plus at least one unit clone) spans
`[0, baseHeight + 1]`. -/
theorem createBase_extent (w h r bh : ℝ) (hbh : 3.95 ≤ bh)
    (hne : baseUnitPositions w h ≠ []) :
    (createBase w h r bh).zLo = 0 ∧ (createBase w h r bh).zHi = bh + 1 := by
  have hunit := createBaseUnit_extent bh (GRID_SIZE - TOLERANCE) r hbh
  constructor
  · rw [createBase, base_fold_zLo _ _ _ hne, hunit.1]
    show min (min bh (bh + 1.0)) 0 = 0
    rw [min_eq_right]
    refine le_min ?_ ?_ <;> linarith
  · rw [createBase, base_fold_zHi _ _ _ hne, hunit.2]
    show max (max bh (bh + 1.0)) bh = bh + 1
    rw [max_eq_right (b := bh + 1.0) (by linarith)]
    rw [max_eq_left (by linarith)]
    norm_num

/-- C4: for every nonempty well-formed outline list and valid parameters
(base tall enough for its bevels, `baseHeight + 1 ≤ totalHeight`), the
assembled bin is the fuse of the base with the wall solid built at wall
height `totalHeight - baseHeight - 1` and translated up by `baseHeight +
1` (the fixed 1mm bottom-plate thickness); `baseHeight + 1 + wallHeight =
totalHeight`, and the bin's bounding Z-extent runs from 0 to exactly
`totalHeight`. -/
theorem createBin_zExtent (outlines : List Outline) (totalHeight baseHeight : ℝ)
    (hne : outlines ≠ []) (hwf : ∀ o ∈ outlines, o.wf)
    (hbase : 3.95 ≤ baseHeight) (htot : baseHeight + 1 ≤ totalHeight) :
    baseHeight + 1 + (totalHeight - baseHeight - 1) = totalHeight ∧
    (createBin outlines totalHeight baseHeight).zLo = 0 ∧
    (createBin outlines totalHeight baseHeight).zHi = totalHeight := by
  obtain ⟨kx, ky, hkx, hky, hdx, hdy⟩ := gridArea_dims outlines hwf
  have hposne : baseUnitPositions
      ((calculateMinimalGridArea outlines).max.x - (calculateMinimalGridArea outlines).min.x)
      ((calculateMinimalGridArea outlines).max.y - (calculateMinimalGridArea outlines).min.y)
      ≠ [] := by
    intro hnil
    have hlen := baseUnitPositions_length
      ((calculateMinimalGridArea outlines).max.x - (calculateMinimalGridArea outlines).min.x)
      ((calculateMinimalGridArea outlines).max.y - (calculateMinimalGridArea outlines).min.y)
    rw [hnil] at hlen
    rw [hdx, hdy, baseNumUnitsX, baseNumUnitsY, jsRound_gridDim kx, jsRound_gridDim ky] at hlen
    have h1 : (1 : ℕ) ≤ kx.toNat := by omega
    have h2 : (1 : ℕ) ≤ ky.toNat := by omega
    simp only [List.length_nil] at hlen
    have hpos : 0 < kx.toNat * ky.toNat := Nat.mul_pos h1 h2
    rw [← hlen] at hpos
    exact lt_irrefl 0 hpos
  have hbaseExt := createBase_extent
    ((calculateMinimalGridArea outlines).max.x - (calculateMinimalGridArea outlines).min.x)
    ((calculateMinimalGridArea outlines).max.y - (calculateMinimalGridArea outlines).min.y)
    (7.5 / 2) baseHeight hbase hposne
  have hwallsLo : (createWallsWithCutouts outlines
      (Drawing.roundedRectangle
        ((calculateMinimalGridArea outlines).max.x - (calculateMinimalGridArea outlines).min.x)
        ((calculateMinimalGridArea outlines).max.y - (calculateMinimalGridArea outlines).min.y)
        (7.5 / 2))
      (calculateMinimalGridArea outlines).min (calculateMinimalGridArea outlines).max
      (totalHeight - baseHeight - 1)).zLo = 0 := by
    rw [createWallsWithCutouts, cut_fold_zLo]
    show min 0 (0 + (totalHeight - baseHeight - 1)) = 0
    rw [min_eq_left]
    linarith
  have hwallsHi : (createWallsWithCutouts outlines
      (Drawing.roundedRectangle
        ((calculateMinimalGridArea outlines).max.x - (calculateMinimalGridArea outlines).min.x)
        ((calculateMinimalGridArea outlines).max.y - (calculateMinimalGridArea outlines).min.y)
        (7.5 / 2))
      (calculateMinimalGridArea outlines).min (calculateMinimalGridArea outlines).max
      (totalHeight - baseHeight - 1)).zHi = totalHeight - baseHeight - 1 := by
    rw [createWallsWithCutouts, cut_fold_zHi]
    show max 0 (0 + (totalHeight - baseHeight - 1)) = totalHeight - baseHeight - 1
    rw [zero_add, max_eq_right]
    linarith
  refine ⟨by ring, ?_, ?_⟩
  · show min (createBase _ _ _ _).zLo (_ + (baseHeight + 1.0)) = 0
    rw [hbaseExt.1, hwallsLo]
    rw [min_eq_left]
    linarith
  · show max (createBase _ _ _ _).zHi (_ + (baseHeight + 1.0)) = totalHeight
    rw [hbaseExt.2, hwallsHi]
    rw [max_eq_right] <;> linarith

/-- Witness for C4: one 80x60 rounded rectangle, total height 20, base
height 4.75. -/
theorem createBin_zExtent_witness :
    (4.75 : ℝ) + 1 + (20 - 4.75 - 1) = 20 ∧
    (createBin [(⟨"o1", ⟨0, 0⟩, 0, some 20, .roundedRect 80 60 15⟩ : Outline)]
        20 4.75).zLo = 0 ∧
    (createBin [(⟨"o1", ⟨0, 0⟩, 0, some 20, .roundedRect 80 60 15⟩ : Outline)]
        20 4.75).zHi = 20 :=
  createBin_zExtent [⟨"o1", ⟨0, 0⟩, 0, some 20, .roundedRect 80 60 15⟩] 20 4.75
    (by simp)
    (by
      intro o ho
      simp only [List.mem_singleton] at ho
      subst ho
      norm_num [Outline.wf])
    (by norm_num) (by norm_num)

/-! ## Cyclic window lemmas (C7) -/

/-- Helper: getD of a map over a range. -/
theorem getD_map_range {α : Type} [Inhabited α] (f : ℕ → α) (n k : ℕ) (h : k < n) :
    ((List.range n).map f).getD k default = f k := by
  rw [List.getD_eq_getElem ((List.range n).map f) default (by simpa using h)]
  simp

/-- Helper: the closed point list has length `n + 3`. -/
theorem allPointsOf_length (pts : List Point) :
    (allPointsOf pts).length = pts.length + 3 := by
  simp [allPointsOf]

/-- Helper: every entry of the closed point list is the cyclically indexed
original point. -/
theorem allPointsOf_getD (pts : List Point) (h3 : 3 ≤ pts.length) (i : ℕ)
    (hi : i ≤ pts.length + 2) :
    (allPointsOf pts).getD i default =
      pts.getD ((i + pts.length - 1) % pts.length) default := by
  have hn : 0 < pts.length := by omega
  rcases Nat.eq_zero_or_pos i with rfl | hipos
  · show (pts.getLastD default :: (pts ++ _)).getD 0 default = _
    rw [List.getD_cons_zero]
    rw [List.getLastD_eq_getLast?, List.getLast?_eq_getElem?, List.getD_eq_getElem?_getD]
    congr 1
    simp only [Nat.zero_add]
    rw [Nat.mod_eq_of_lt (by omega)]
  · obtain ⟨i, rfl⟩ := Nat.exists_eq_add_of_le hipos
    show (pts.getLastD default :: (pts ++ [pts.getD 0 default, pts.getD 1 default])).getD
      (1 + i) default = _
    rw [show 1 + i = i + 1 by omega, List.getD_cons_succ]
    by_cases hilt : i < pts.length
    · rw [show (pts ++ [pts.getD 0 default, pts.getD 1 default]).getD i default
          = pts.getD i default by
        simp [List.getD_eq_getElem?_getD, List.getElem?_append_left hilt]]
      congr 1
      rw [show i + 1 + pts.length - 1 = i + pts.length by omega, Nat.add_mod_right,
        Nat.mod_eq_of_lt hilt]
    · have hile : pts.length ≤ i := by omega
      rw [show (pts ++ [pts.getD 0 default, pts.getD 1 default]).getD i default
          = ([pts.getD 0 default, pts.getD 1 default]).getD (i - pts.length) default by
        simp [List.getD_eq_getElem?_getD, List.getElem?_append_right hile]]
      rcases Nat.eq_or_lt_of_le hile with heq | hlt2
      · have heq2 : i = pts.length := heq.symm
        subst heq2
        simp only [Nat.sub_self, List.getD_cons_zero]
        congr 1
        rw [show pts.length + 1 + pts.length - 1 = 2 * pts.length by omega, Nat.mul_mod_left]
      · have heq2 : i = pts.length + 1 := by omega
        subst heq2
        simp only [show pts.length + 1 - pts.length = 1 by omega, List.getD_cons_succ,
          List.getD_cons_zero]
        congr 1
        rw [show pts.length + 1 + 1 + pts.length - 1 = 1 + pts.length * 2 by omega,
          Nat.add_mul_mod_self_left, Nat.mod_eq_of_lt (by omega)]

/-- Helper: number of windows = number of points. -/
theorem windows_length (pts : List Point) (h3 : 3 ≤ pts.length) :
    (windows pts).length = pts.length := by
  simp [windows, allPointsOf_length]

/-- Helper: the k-th window consists of the four cyclically consecutive
original points centred on the pair `(pts[k], pts[k+1 mod n])`. -/
theorem windows_getD (pts : List Point) (h3 : 3 ≤ pts.length) (k : ℕ)
    (hk : k < pts.length) :
    (windows pts).getD k default =
      (pts.getD ((k + pts.length - 1) % pts.length) default,
       pts.getD k default,
       pts.getD ((k + 1) % pts.length) default,
       pts.getD ((k + 2) % pts.length) default) := by
  have hlen : (allPointsOf pts).length - 3 = pts.length := by
    rw [allPointsOf_length]; omega
  rw [windows]
  simp only [hlen]
  rw [getD_map_range _ _ _ hk]
  rw [allPointsOf_getD pts h3 k (by omega), allPointsOf_getD pts h3 (k + 1) (by omega),
    allPointsOf_getD pts h3 (k + 2) (by omega), allPointsOf_getD pts h3 (k + 3) (by omega)]
  congr 2
  · rw [show k + 1 + pts.length - 1 = k + pts.length by omega, Nat.add_mod_right,
      Nat.mod_eq_of_lt hk]
  · congr 1
    · rw [show k + 2 + pts.length - 1 = (k + 1) + pts.length by omega, Nat.add_mod_right]
    · rw [show k + 3 + pts.length - 1 = (k + 2) + pts.length by omega, Nat.add_mod_right]

/-- Helper: getD through a map. -/
theorem getD_map {α β : Type} [Inhabited α] [Inhabited β] (f : α → β) (l : List α) (k : ℕ)
    (hk : k < l.length) : (l.map f).getD k default = f (l.getD k default) := by
  rw [List.getD_eq_getElem (l.map f) default (by simpa using hk), List.getElem_map,
    List.getD_eq_getElem l default hk]

/-- Helper: the Catmull-Rom parameter increment is the square root of the
chord length (`(dx² + dy²)^0.25 = √(√(dx² + dy²))`). -/
theorem getT_eq_sqrt_chord (p q : Point) : getT p q = Real.sqrt (chordLength p q) := by
  rw [getT, chordLength]
  have hs0 : 0 ≤ (q.x - p.x) * (q.x - p.x) + (q.y - p.y) * (q.y - p.y) := by
    nlinarith [sq_nonneg (q.x - p.x), sq_nonneg (q.y - p.y)]
  rw [Real.sqrt_eq_rpow, Real.sqrt_eq_rpow]
  rw [show (0.25 : ℝ) = (1 / 2 : ℝ) * (1 / 2) by norm_num]
  rw [Real.rpow_mul hs0]

/-- C7: the spline profile built by the worker consists of exactly one
cubic segment per pair of cyclically consecutive original points: there
are as many segments as points; segment k ends at original point k+1 (mod
n) with X negated, and its control points are `catmullToBezier` of the
cyclic 4-point window centred on `(pts[k], pts[k+1])`, mirrored the same
way; and the α = 0.5 parameter increments used by `catmullToBezier` equal
the square root of each chord length. -/
theorem spline_profile_segments (pts : List Point) (h3 : 3 ≤ pts.length) :
    (∀ p q : Point, getT p q = Real.sqrt (chordLength p q)) ∧
    (splineCutoutSegments pts).length = pts.length ∧
    ∀ k : ℕ, k < pts.length →
      (splineCutoutSegments pts).getD k default =
        (mirrorX (pts.getD ((k + 1) % pts.length) default),
         mirrorX (catmullToBezier
            (pts.getD ((k + pts.length - 1) % pts.length) default)
            (pts.getD k default)
            (pts.getD ((k + 1) % pts.length) default)
            (pts.getD ((k + 2) % pts.length) default)).1,
         mirrorX (catmullToBezier
            (pts.getD ((k + pts.length - 1) % pts.length) default)
            (pts.getD k default)
            (pts.getD ((k + 1) % pts.length) default)
            (pts.getD ((k + 2) % pts.length) default)).2) := by
  refine ⟨getT_eq_sqrt_chord, ?_, ?_⟩
  · simp [splineCutoutSegments, windows_length pts h3]
  · intro k hk
    rw [splineCutoutSegments,
      getD_map _ _ _ (by rw [windows_length pts h3]; exact hk),
      windows_getD pts h3 k hk]
    rfl

/-- Witness for C7 on a 4-point square spline. -/
theorem spline_profile_segments_witness :
    (∀ p q : Point, getT p q = Real.sqrt (chordLength p q)) ∧
    (splineCutoutSegments [(⟨0, 0⟩ : Point), ⟨10, 0⟩, ⟨10, 10⟩, ⟨0, 10⟩]).length =
      ([(⟨0, 0⟩ : Point), ⟨10, 0⟩, ⟨10, 10⟩, ⟨0, 10⟩] : List Point).length ∧
    ∀ k : ℕ, k < ([(⟨0, 0⟩ : Point), ⟨10, 0⟩, ⟨10, 10⟩, ⟨0, 10⟩] : List Point).length →
      (splineCutoutSegments [(⟨0, 0⟩ : Point), ⟨10, 0⟩, ⟨10, 10⟩, ⟨0, 10⟩]).getD k default =
        (mirrorX (([(⟨0, 0⟩ : Point), ⟨10, 0⟩, ⟨10, 10⟩, ⟨0, 10⟩] : List Point).getD
            ((k + 1) % ([(⟨0, 0⟩ : Point), ⟨10, 0⟩, ⟨10, 10⟩, ⟨0, 10⟩] : List Point).length)
            default),
         mirrorX (catmullToBezier
            (([(⟨0, 0⟩ : Point), ⟨10, 0⟩, ⟨10, 10⟩, ⟨0, 10⟩] : List Point).getD
              ((k + ([(⟨0, 0⟩ : Point), ⟨10, 0⟩, ⟨10, 10⟩, ⟨0, 10⟩] : List Point).length - 1) %
                ([(⟨0, 0⟩ : Point), ⟨10, 0⟩, ⟨10, 10⟩, ⟨0, 10⟩] : List Point).length) default)
            (([(⟨0, 0⟩ : Point), ⟨10, 0⟩, ⟨10, 10⟩, ⟨0, 10⟩] : List Point).getD k default)
            (([(⟨0, 0⟩ : Point), ⟨10, 0⟩, ⟨10, 10⟩, ⟨0, 10⟩] : List Point).getD
              ((k + 1) % ([(⟨0, 0⟩ : Point), ⟨10, 0⟩, ⟨10, 10⟩, ⟨0, 10⟩] : List Point).length)
              default)
            (([(⟨0, 0⟩ : Point), ⟨10, 0⟩, ⟨10, 10⟩, ⟨0, 10⟩] : List Point).getD
              ((k + 2) % ([(⟨0, 0⟩ : Point), ⟨10, 0⟩, ⟨10, 10⟩, ⟨0, 10⟩] : List Point).length)
              default)).1,
         mirrorX (catmullToBezier
            (([(⟨0, 0⟩ : Point), ⟨10, 0⟩, ⟨10, 10⟩, ⟨0, 10⟩] : List Point).getD
              ((k + ([(⟨0, 0⟩ : Point), ⟨10, 0⟩, ⟨10, 10⟩, ⟨0, 10⟩] : List Point).length - 1) %
                ([(⟨0, 0⟩ : Point), ⟨10, 0⟩, ⟨10, 10⟩, ⟨0, 10⟩] : List Point).length) default)
            (([(⟨0, 0⟩ : Point), ⟨10, 0⟩, ⟨10, 10⟩, ⟨0, 10⟩] : List Point).getD k default)
            (([(⟨0, 0⟩ : Point), ⟨10, 0⟩, ⟨10, 10⟩, ⟨0, 10⟩] : List Point).getD
              ((k + 1) % ([(⟨0, 0⟩ : Point), ⟨10, 0⟩, ⟨10, 10⟩, ⟨0, 10⟩] : List Point).length)
              default)
            (([(⟨0, 0⟩ : Point), ⟨10, 0⟩, ⟨10, 10⟩, ⟨0, 10⟩] : List Point).getD
              ((k + 2) % ([(⟨0, 0⟩ : Point), ⟨10, 0⟩, ⟨10, 10⟩, ⟨0, 10⟩] : List Point).length)
              default)).2) :=
  spline_profile_segments [⟨0, 0⟩, ⟨10, 0⟩, ⟨10, 10⟩, ⟨0, 10⟩] (by norm_num)

/-! ## Rounded-rectangle silhouette bounds (C5) -/

/-- Helper: a 4-point convex combination is below any common upper bound. -/
theorem convex4_le {l1 l2 l3 l4 a1 a2 a3 a4 A : ℝ} (h1 : 0 ≤ l1) (h2 : 0 ≤ l2)
    (h3 : 0 ≤ l3) (h4 : 0 ≤ l4) (hs : l1 + l2 + l3 + l4 = 1)
    (b1 : a1 ≤ A) (b2 : a2 ≤ A) (b3 : a3 ≤ A) (b4 : a4 ≤ A) :
    l1 * a1 + l2 * a2 + l3 * a3 + l4 * a4 ≤ A := by
  have e1 := mul_le_mul_of_nonneg_left b1 h1
  have e2 := mul_le_mul_of_nonneg_left b2 h2
  have e3 := mul_le_mul_of_nonneg_left b3 h3
  have e4 := mul_le_mul_of_nonneg_left b4 h4
  have hA : l1 * A + l2 * A + l3 * A + l4 * A = A := by
    calc l1 * A + l2 * A + l3 * A + l4 * A = (l1 + l2 + l3 + l4) * A := by ring
    _ = 1 * A := by rw [hs]
    _ = A := one_mul A
  linarith

/-- Helper: a 4-point convex combination is above any common lower bound. -/
theorem le_convex4 {l1 l2 l3 l4 a1 a2 a3 a4 m : ℝ} (h1 : 0 ≤ l1) (h2 : 0 ≤ l2)
    (h3 : 0 ≤ l3) (h4 : 0 ≤ l4) (hs : l1 + l2 + l3 + l4 = 1)
    (b1 : m ≤ a1) (b2 : m ≤ a2) (b3 : m ≤ a3) (b4 : m ≤ a4) :
    m ≤ l1 * a1 + l2 * a2 + l3 * a3 + l4 * a4 := by
  have e1 := mul_le_mul_of_nonneg_left b1 h1
  have e2 := mul_le_mul_of_nonneg_left b2 h2
  have e3 := mul_le_mul_of_nonneg_left b3 h3
  have e4 := mul_le_mul_of_nonneg_left b4 h4
  have hA : l1 * m + l2 * m + l3 * m + l4 * m = m := by
    calc l1 * m + l2 * m + l3 * m + l4 * m = (l1 + l2 + l3 + l4) * m := by ring
    _ = 1 * m := by rw [hs]
    _ = m := one_mul m
  linarith

/-- Helper: a disk offset from a transformed corner-arc center lies in the
rounded-rectangle region. -/
theorem corner_offset_mem_region (w h r : ℝ) (pos : Point) (rotv : ℝ)
    (c : Point) (hc : c ∈ rectCornerCenters w h r) (dx dy : ℝ)
    (hd : dx ^ 2 + dy ^ 2 ≤ r ^ 2) :
    (⟨(transformPoint c pos rotv).x + dx, (transformPoint c pos rotv).y + dy⟩ : Point)
      ∈ roundedRectRegion w h r pos rotv := by
  simp only [rectCornerCenters, List.mem_cons, List.not_mem_nil, or_false] at hc
  rcases hc with rfl | rfl | rfl | rfl
  · refine ⟨1, 0, 0, 0, by norm_num, by norm_num, by norm_num, by norm_num, by norm_num,
      dx, dy, hd, ?_⟩
    simp only [rectCornerCenters, List.getD_cons_zero, List.getD_cons_succ, Point.mk.injEq]
    constructor <;> (simp only [transformPoint]; ring)
  · refine ⟨0, 1, 0, 0, by norm_num, by norm_num, by norm_num, by norm_num, by norm_num,
      dx, dy, hd, ?_⟩
    simp only [rectCornerCenters, List.getD_cons_zero, List.getD_cons_succ, Point.mk.injEq]
    constructor <;> (simp only [transformPoint]; ring)
  · refine ⟨0, 0, 1, 0, by norm_num, by norm_num, by norm_num, by norm_num, by norm_num,
      dx, dy, hd, ?_⟩
    simp only [rectCornerCenters, List.getD_cons_zero, List.getD_cons_succ, Point.mk.injEq]
    constructor <;> (simp only [transformPoint]; ring)
  · refine ⟨0, 0, 0, 1, by norm_num, by norm_num, by norm_num, by norm_num, by norm_num,
      dx, dy, hd, ?_⟩
    simp only [rectCornerCenters, List.getD_cons_zero, List.getD_cons_succ, Point.mk.injEq]
    constructor <;> (simp only [transformPoint]; ring)

/-- C5: for every RoundedRect outline with `0 ≤ radius ≤ min(width,
height)/2`, `calculateMinimalGridArea` computes its bounds as the bounds
of the four world-transformed corner-arc centers expanded uniformly by the
radius (`outlineBounds` unfolds to `roundedRectBounds`), and this equals
the true axis-aligned bound of the rotated, translated rounded rectangle's
silhouette: every region point lies within the computed bounds, and all
four bounds are attained by region points. -/
theorem roundedRectBounds_exact (w h r : ℝ) (pos : Point) (rotv : ℝ)
    (hr0 : 0 ≤ r) (hrle : r ≤ min w h / 2) :
    (∀ (oid : String) (d : Option ℝ),
        outlineBounds ⟨oid, pos, rotv, d, .roundedRect w h r⟩ =
          roundedRectBounds w h r pos rotv) ∧
    (∀ q ∈ roundedRectRegion w h r pos rotv,
        (roundedRectBounds w h r pos rotv).minX ≤ q.x ∧
        q.x ≤ (roundedRectBounds w h r pos rotv).maxX ∧
        (roundedRectBounds w h r pos rotv).minY ≤ q.y ∧
        q.y ≤ (roundedRectBounds w h r pos rotv).maxY) ∧
    (∃ q ∈ roundedRectRegion w h r pos rotv,
        q.x = (roundedRectBounds w h r pos rotv).minX) ∧
    (∃ q ∈ roundedRectRegion w h r pos rotv,
        q.x = (roundedRectBounds w h r pos rotv).maxX) ∧
    (∃ q ∈ roundedRectRegion w h r pos rotv,
        q.y = (roundedRectBounds w h r pos rotv).minY) ∧
    (∃ q ∈ roundedRectRegion w h r pos rotv,
        q.y = (roundedRectBounds w h r pos rotv).maxY) := by
  have hcxs : (((rectCornerCenters w h r).map fun c => transformPoint c pos rotv).map
      (·.x)) ≠ [] := by simp [rectCornerCenters]
  have hcys : (((rectCornerCenters w h r).map fun c => transformPoint c pos rotv).map
      (·.y)) ≠ [] := by simp [rectCornerCenters]
  refine ⟨fun oid d => rfl, ?_, ?_, ?_, ?_, ?_⟩
  · intro q hq
    obtain ⟨l1, l2, l3, l4, hl1, hl2, hl3, hl4, hsum, dx, dy, hd, hq⟩ := hq
    simp only [rectCornerCenters, List.getD_cons_zero, List.getD_cons_succ] at hq
    have hdx1 : dx ≤ r := by nlinarith [sq_nonneg (dx - r), sq_nonneg (dx + r), sq_nonneg dy]
    have hdx2 : -r ≤ dx := by nlinarith [sq_nonneg (dx - r), sq_nonneg (dx + r), sq_nonneg dy]
    have hdy1 : dy ≤ r := by nlinarith [sq_nonneg (dy - r), sq_nonneg (dy + r), sq_nonneg dx]
    have hdy2 : -r ≤ dy := by nlinarith [sq_nonneg (dy - r), sq_nonneg (dy + r), sq_nonneg dx]
    have hl4e : l4 = 1 - l1 - l2 - l3 := by linarith
    -- the four transformed corner centers
    have hm1x : (transformPoint ⟨-(w / 2) + r, -(h / 2) + r⟩ pos rotv).x ∈
        (((rectCornerCenters w h r).map fun c => transformPoint c pos rotv).map (·.x)) := by
      simp [rectCornerCenters]
    have hm2x : (transformPoint ⟨w / 2 - r, -(h / 2) + r⟩ pos rotv).x ∈
        (((rectCornerCenters w h r).map fun c => transformPoint c pos rotv).map (·.x)) := by
      simp [rectCornerCenters]
    have hm3x : (transformPoint ⟨w / 2 - r, h / 2 - r⟩ pos rotv).x ∈
        (((rectCornerCenters w h r).map fun c => transformPoint c pos rotv).map (·.x)) := by
      simp [rectCornerCenters]
    have hm4x : (transformPoint ⟨-(w / 2) + r, h / 2 - r⟩ pos rotv).x ∈
        (((rectCornerCenters w h r).map fun c => transformPoint c pos rotv).map (·.x)) := by
      simp [rectCornerCenters]
    have hm1y : (transformPoint ⟨-(w / 2) + r, -(h / 2) + r⟩ pos rotv).y ∈
        (((rectCornerCenters w h r).map fun c => transformPoint c pos rotv).map (·.y)) := by
      simp [rectCornerCenters]
    have hm2y : (transformPoint ⟨w / 2 - r, -(h / 2) + r⟩ pos rotv).y ∈
        (((rectCornerCenters w h r).map fun c => transformPoint c pos rotv).map (·.y)) := by
      simp [rectCornerCenters]
    have hm3y : (transformPoint ⟨w / 2 - r, h / 2 - r⟩ pos rotv).y ∈
        (((rectCornerCenters w h r).map fun c => transformPoint c pos rotv).map (·.y)) := by
      simp [rectCornerCenters]
    have hm4y : (transformPoint ⟨-(w / 2) + r, h / 2 - r⟩ pos rotv).y ∈
        (((rectCornerCenters w h r).map fun c => transformPoint c pos rotv).map (·.y)) := by
      simp [rectCornerCenters]
    have hTx : (transformPoint
        ⟨l1 * (-(w / 2) + r) + l2 * (w / 2 - r) + l3 * (w / 2 - r) + l4 * (-(w / 2) + r),
         l1 * (-(h / 2) + r) + l2 * (-(h / 2) + r) + l3 * (h / 2 - r) + l4 * (h / 2 - r)⟩
        pos rotv).x =
        l1 * (transformPoint ⟨-(w / 2) + r, -(h / 2) + r⟩ pos rotv).x +
        l2 * (transformPoint ⟨w / 2 - r, -(h / 2) + r⟩ pos rotv).x +
        l3 * (transformPoint ⟨w / 2 - r, h / 2 - r⟩ pos rotv).x +
        l4 * (transformPoint ⟨-(w / 2) + r, h / 2 - r⟩ pos rotv).x := by
      simp only [transformPoint]
      rw [hl4e]; ring
    have hTy : (transformPoint
        ⟨l1 * (-(w / 2) + r) + l2 * (w / 2 - r) + l3 * (w / 2 - r) + l4 * (-(w / 2) + r),
         l1 * (-(h / 2) + r) + l2 * (-(h / 2) + r) + l3 * (h / 2 - r) + l4 * (h / 2 - r)⟩
        pos rotv).y =
        l1 * (transformPoint ⟨-(w / 2) + r, -(h / 2) + r⟩ pos rotv).y +
        l2 * (transformPoint ⟨w / 2 - r, -(h / 2) + r⟩ pos rotv).y +
        l3 * (transformPoint ⟨w / 2 - r, h / 2 - r⟩ pos rotv).y +
        l4 * (transformPoint ⟨-(w / 2) + r, h / 2 - r⟩ pos rotv).y := by
      simp only [transformPoint]
      rw [hl4e]; ring
    rw [hq]
    refine ⟨?_, ?_, ?_, ?_⟩
    · show listMin _ - r ≤ _ + dx
      rw [hTx]
      have := le_convex4 hl1 hl2 hl3 hl4 hsum (listMin_le_of_mem hm1x)
        (listMin_le_of_mem hm2x) (listMin_le_of_mem hm3x) (listMin_le_of_mem hm4x)
      linarith
    · show _ + dx ≤ listMax _ + r
      rw [hTx]
      have := convex4_le hl1 hl2 hl3 hl4 hsum (le_listMax_of_mem hm1x)
        (le_listMax_of_mem hm2x) (le_listMax_of_mem hm3x) (le_listMax_of_mem hm4x)
      linarith
    · show listMin _ - r ≤ _ + dy
      rw [hTy]
      have := le_convex4 hl1 hl2 hl3 hl4 hsum (listMin_le_of_mem hm1y)
        (listMin_le_of_mem hm2y) (listMin_le_of_mem hm3y) (listMin_le_of_mem hm4y)
      linarith
    · show _ + dy ≤ listMax _ + r
      rw [hTy]
      have := convex4_le hl1 hl2 hl3 hl4 hsum (le_listMax_of_mem hm1y)
        (le_listMax_of_mem hm2y) (le_listMax_of_mem hm3y) (le_listMax_of_mem hm4y)
      linarith
  · obtain ⟨a, ha, hax⟩ := List.mem_map.1 (listMin_mem hcxs)
    obtain ⟨c, hc, hca⟩ := List.mem_map.1 ha
    refine ⟨⟨(transformPoint c pos rotv).x + -r, (transformPoint c pos rotv).y + 0⟩,
      corner_offset_mem_region w h r pos rotv c hc (-r) 0 (by nlinarith), ?_⟩
    show (transformPoint c pos rotv).x + -r = listMin _ - r
    rw [← hax, hca]
    ring
  · obtain ⟨a, ha, hax⟩ := List.mem_map.1 (listMax_mem hcxs)
    obtain ⟨c, hc, hca⟩ := List.mem_map.1 ha
    refine ⟨⟨(transformPoint c pos rotv).x + r, (transformPoint c pos rotv).y + 0⟩,
      corner_offset_mem_region w h r pos rotv c hc r 0 (by nlinarith), ?_⟩
    show (transformPoint c pos rotv).x + r = listMax _ + r
    rw [← hax, hca]
  · obtain ⟨a, ha, hay⟩ := List.mem_map.1 (listMin_mem hcys)
    obtain ⟨c, hc, hca⟩ := List.mem_map.1 ha
    refine ⟨⟨(transformPoint c pos rotv).x + 0, (transformPoint c pos rotv).y + -r⟩,
      corner_offset_mem_region w h r pos rotv c hc 0 (-r) (by nlinarith), ?_⟩
    show (transformPoint c pos rotv).y + -r = listMin _ - r
    rw [← hay, hca]
    ring
  · obtain ⟨a, ha, hay⟩ := List.mem_map.1 (listMax_mem hcys)
    obtain ⟨c, hc, hca⟩ := List.mem_map.1 ha
    refine ⟨⟨(transformPoint c pos rotv).x + 0, (transformPoint c pos rotv).y + r⟩,
      corner_offset_mem_region w h r pos rotv c hc 0 r (by nlinarith), ?_⟩
    show (transformPoint c pos rotv).y + r = listMax _ + r
    rw [← hay, hca]

/-- Witness for C5 at an 80x60 rectangle with radius 15 (the scenario from
the spec's testable properties). -/
theorem roundedRectBounds_exact_witness :
    (∀ (oid : String) (d : Option ℝ),
        outlineBounds ⟨oid, ⟨0, 0⟩, 0, d, .roundedRect 80 60 15⟩ =
          roundedRectBounds 80 60 15 ⟨0, 0⟩ 0) ∧
    (∀ q ∈ roundedRectRegion 80 60 15 ⟨0, 0⟩ 0,
        (roundedRectBounds 80 60 15 ⟨0, 0⟩ 0).minX ≤ q.x ∧
        q.x ≤ (roundedRectBounds 80 60 15 ⟨0, 0⟩ 0).maxX ∧
        (roundedRectBounds 80 60 15 ⟨0, 0⟩ 0).minY ≤ q.y ∧
        q.y ≤ (roundedRectBounds 80 60 15 ⟨0, 0⟩ 0).maxY) ∧
    (∃ q ∈ roundedRectRegion 80 60 15 ⟨0, 0⟩ 0,
        q.x = (roundedRectBounds 80 60 15 ⟨0, 0⟩ 0).minX) ∧
    (∃ q ∈ roundedRectRegion 80 60 15 ⟨0, 0⟩ 0,
        q.x = (roundedRectBounds 80 60 15 ⟨0, 0⟩ 0).maxX) ∧
    (∃ q ∈ roundedRectRegion 80 60 15 ⟨0, 0⟩ 0,
        q.y = (roundedRectBounds 80 60 15 ⟨0, 0⟩ 0).minY) ∧
    (∃ q ∈ roundedRectRegion 80 60 15 ⟨0, 0⟩ 0,
        q.y = (roundedRectBounds 80 60 15 ⟨0, 0⟩ 0).maxY) :=
  roundedRectBounds_exact 80 60 15 ⟨0, 0⟩ 0 (by norm_num) (by norm_num)

/-! ## Cubic Bezier analysis (C6) -/

/-- Helper: derivative of a cubic Bezier coordinate is the quadratic with
the coefficients computed in `calculateSplineBounds`. -/
theorem evaluateCubicBezier_hasDerivAt (P0 P1 P2 P3 t : ℝ) :
    HasDerivAt (evaluateCubicBezier P0 P1 P2 P3)
      (bezierCoeffA P0 P1 P2 P3 * t ^ 2 + bezierCoeffB P0 P1 P2 * t + bezierCoeffC P0 P1)
      t := by
  have h3 := (hasDerivAt_pow 3 t).const_mul (-P0 + 3 * P1 - 3 * P2 + P3)
  have h2 := (hasDerivAt_pow 2 t).const_mul (3 * P0 - 6 * P1 + 3 * P2)
  have h1 := (hasDerivAt_id t).const_mul (-3 * P0 + 3 * P1)
  have hg := (((h3.add h2).add h1).add_const P0)
  have hfg : evaluateCubicBezier P0 P1 P2 P3 = fun s : ℝ =>
      ((-P0 + 3 * P1 - 3 * P2 + P3) * s ^ 3 + (3 * P0 - 6 * P1 + 3 * P2) * s ^ 2 +
        (-3 * P0 + 3 * P1) * s) + P0 := by
    funext s
    simp only [evaluateCubicBezier]
    ring
  rw [hfg]
  convert hg using 1
  simp only [bezierCoeffA, bezierCoeffB, bezierCoeffC]
  push_cast
  ring

/-- Helper: under exact degeneracy guards, every root of the derivative
quadratic inside `[0,1]` is reported by `solveCubicDerivativeZeros`,
unless the quadratic is a nonzero constant or zero (`a = b = 0`). -/
theorem solveCubicDerivativeZeros_complete (a b c t : ℝ)
    (hA : |a| < 1e-6 → a = 0) (hB : |b| < 1e-6 → b = 0)
    (ht0 : 0 ≤ t) (ht1 : t ≤ 1) (hroot : a * t ^ 2 + b * t + c = 0)
    (hnz : ¬(a = 0 ∧ b = 0)) :
    t ∈ solveCubicDerivativeZeros a b c := by
  simp only [solveCubicDerivativeZeros]
  by_cases ha : |a| < 1e-6
  · have ha0 : a = 0 := hA ha
    rw [if_pos ha]
    by_cases hb : |b| < 1e-6
    · exact absurd ⟨ha0, hB hb⟩ hnz
    · rw [if_neg hb]
      have hbne : b ≠ 0 := fun hbz => hb (by rw [hbz]; norm_num)
      have hteq : -c / b = t := by
        rw [ha0] at hroot
        field_simp
        linarith
      rw [hteq, if_pos ⟨ht0, ht1⟩]
      exact List.mem_singleton_self t
  · rw [if_neg ha]
    have hane : a ≠ 0 := fun haz => ha (by rw [haz]; norm_num)
    have hD : b * b - 4 * a * c = (2 * a * t + b) ^ 2 := by
      linear_combination (-4 * a) * hroot
    have hDnn : 0 ≤ b * b - 4 * a * c := by rw [hD]; positivity
    rw [if_neg (not_lt.2 hDnn)]
    have hsq : Real.sqrt (b * b - 4 * a * c) = |2 * a * t + b| := by
      rw [hD]
      exact Real.sqrt_sq_eq_abs _
    rcases abs_cases (2 * a * t + b) with ⟨habs, _⟩ | ⟨habs, _⟩
    · have ht : (-b + Real.sqrt (b * b - 4 * a * c)) / (2 * a) = t := by
        rw [hsq, habs]
        field_simp
      rw [ht]
      simp only [List.mem_filter, List.mem_cons, List.not_mem_nil, or_false,
        decide_eq_true_eq]
      refine ⟨by left; trivial, ht0, ht1⟩
    · have ht : (-b - Real.sqrt (b * b - 4 * a * c)) / (2 * a) = t := by
        rw [hsq, habs]
        field_simp
      rw [ht]
      simp only [List.mem_filter, List.mem_cons, List.not_mem_nil, or_false,
        decide_eq_true_eq]
      refine ⟨by right; trivial, ht0, ht1⟩

/-- Helper: a cubic Bezier coordinate on `[0,1]` is bounded above by its
value at an endpoint or at a root reported by `solveCubicDerivativeZeros`,
under exact degeneracy guards. -/
theorem bezier_le_max (P0 P1 P2 P3 : ℝ)
    (hA : |bezierCoeffA P0 P1 P2 P3| < 1e-6 → bezierCoeffA P0 P1 P2 P3 = 0)
    (hB : |bezierCoeffB P0 P1 P2| < 1e-6 → bezierCoeffB P0 P1 P2 = 0)
    (t : ℝ) (ht0 : 0 ≤ t) (ht1 : t ≤ 1) :
    ∃ s, (s = 0 ∨ s = 1 ∨
        s ∈ solveCubicDerivativeZeros (bezierCoeffA P0 P1 P2 P3) (bezierCoeffB P0 P1 P2)
          (bezierCoeffC P0 P1)) ∧
      evaluateCubicBezier P0 P1 P2 P3 t ≤ evaluateCubicBezier P0 P1 P2 P3 s := by
  by_cases hab : bezierCoeffA P0 P1 P2 P3 = 0 ∧ bezierCoeffB P0 P1 P2 = 0
  · have hP2 : P2 = 2 * P1 - P0 := by
      have hb := hab.2
      simp only [bezierCoeffB] at hb
      linarith
    have hP3 : P3 = 3 * P1 - 2 * P0 := by
      have ha := hab.1
      simp only [bezierCoeffA] at ha
      linarith
    by_cases hc : P0 ≤ P1
    · refine ⟨1, Or.inr (Or.inl rfl), ?_⟩
      simp only [evaluateCubicBezier]
      rw [hP2, hP3]
      nlinarith [mul_nonneg (sub_nonneg.2 hc) (sub_nonneg.2 ht1), sq_nonneg t,
        mul_nonneg (mul_nonneg (sub_nonneg.2 hc) (sub_nonneg.2 ht1)) (sub_nonneg.2 ht1)]
    · refine ⟨0, Or.inl rfl, ?_⟩
      simp only [evaluateCubicBezier]
      rw [hP2, hP3]
      nlinarith [mul_nonneg (sub_nonneg.2 (le_of_not_le hc)) ht0,
        mul_nonneg (mul_nonneg (sub_nonneg.2 (le_of_not_le hc)) ht0) ht0]
  · have hcont : Continuous (evaluateCubicBezier P0 P1 P2 P3) :=
      continuous_iff_continuousAt.2 fun s =>
        (evaluateCubicBezier_hasDerivAt P0 P1 P2 P3 s).continuousAt
    obtain ⟨s, hsmem, hsmax⟩ := (isCompact_Icc (a := (0 : ℝ)) (b := 1)).exists_isMaxOn
      (Set.nonempty_Icc.2 (by norm_num)) hcont.continuousOn
    have hmax := isMaxOn_iff.1 hsmax
    by_cases hs0 : s = 0
    · exact ⟨0, Or.inl rfl, hs0 ▸ hmax t ⟨ht0, ht1⟩⟩
    by_cases hs1 : s = 1
    · exact ⟨1, Or.inr (Or.inl rfl), hs1 ▸ hmax t ⟨ht0, ht1⟩⟩
    have hsin : s ∈ Set.Ioo (0 : ℝ) 1 :=
      ⟨lt_of_le_of_ne hsmem.1 (Ne.symm hs0), lt_of_le_of_ne hsmem.2 hs1⟩
    have hlocal : IsLocalMax (evaluateCubicBezier P0 P1 P2 P3) s :=
      hsmax.isLocalMax (Icc_mem_nhds hsin.1 hsin.2)
    have hderiv := hlocal.hasDerivAt_eq_zero (evaluateCubicBezier_hasDerivAt P0 P1 P2 P3 s)
    have hmem := solveCubicDerivativeZeros_complete _ _ _ s hA hB (le_of_lt hsin.1)
      (le_of_lt hsin.2) hderiv hab
    exact ⟨s, Or.inr (Or.inr hmem), hmax t ⟨ht0, ht1⟩⟩

/-- Helper: lower-bound analogue of `bezier_le_max`. -/
theorem bezier_ge_min (P0 P1 P2 P3 : ℝ)
    (hA : |bezierCoeffA P0 P1 P2 P3| < 1e-6 → bezierCoeffA P0 P1 P2 P3 = 0)
    (hB : |bezierCoeffB P0 P1 P2| < 1e-6 → bezierCoeffB P0 P1 P2 = 0)
    (t : ℝ) (ht0 : 0 ≤ t) (ht1 : t ≤ 1) :
    ∃ s, (s = 0 ∨ s = 1 ∨
        s ∈ solveCubicDerivativeZeros (bezierCoeffA P0 P1 P2 P3) (bezierCoeffB P0 P1 P2)
          (bezierCoeffC P0 P1)) ∧
      evaluateCubicBezier P0 P1 P2 P3 s ≤ evaluateCubicBezier P0 P1 P2 P3 t := by
  by_cases hab : bezierCoeffA P0 P1 P2 P3 = 0 ∧ bezierCoeffB P0 P1 P2 = 0
  · have hP2 : P2 = 2 * P1 - P0 := by
      have hb := hab.2
      simp only [bezierCoeffB] at hb
      linarith
    have hP3 : P3 = 3 * P1 - 2 * P0 := by
      have ha := hab.1
      simp only [bezierCoeffA] at ha
      linarith
    by_cases hc : P0 ≤ P1
    · refine ⟨0, Or.inl rfl, ?_⟩
      simp only [evaluateCubicBezier]
      rw [hP2, hP3]
      nlinarith [mul_nonneg (sub_nonneg.2 hc) ht0,
        mul_nonneg (mul_nonneg (sub_nonneg.2 hc) ht0) ht0]
    · refine ⟨1, Or.inr (Or.inl rfl), ?_⟩
      simp only [evaluateCubicBezier]
      rw [hP2, hP3]
      nlinarith [mul_nonneg (sub_nonneg.2 (le_of_not_le hc)) (sub_nonneg.2 ht1),
        mul_nonneg (mul_nonneg (sub_nonneg.2 (le_of_not_le hc)) (sub_nonneg.2 ht1))
          (sub_nonneg.2 ht1)]
  · have hcont : Continuous (evaluateCubicBezier P0 P1 P2 P3) :=
      continuous_iff_continuousAt.2 fun s =>
        (evaluateCubicBezier_hasDerivAt P0 P1 P2 P3 s).continuousAt
    obtain ⟨s, hsmem, hsmin⟩ := (isCompact_Icc (a := (0 : ℝ)) (b := 1)).exists_isMinOn
      (Set.nonempty_Icc.2 (by norm_num)) hcont.continuousOn
    have hmin := isMinOn_iff.1 hsmin
    by_cases hs0 : s = 0
    · exact ⟨0, Or.inl rfl, hs0 ▸ hmin t ⟨ht0, ht1⟩⟩
    by_cases hs1 : s = 1
    · exact ⟨1, Or.inr (Or.inl rfl), hs1 ▸ hmin t ⟨ht0, ht1⟩⟩
    have hsin : s ∈ Set.Ioo (0 : ℝ) 1 :=
      ⟨lt_of_le_of_ne hsmem.1 (Ne.symm hs0), lt_of_le_of_ne hsmem.2 hs1⟩
    have hlocal : IsLocalMin (evaluateCubicBezier P0 P1 P2 P3) s :=
      hsmin.isLocalMin (Icc_mem_nhds hsin.1 hsin.2)
    have hderiv := hlocal.hasDerivAt_eq_zero (evaluateCubicBezier_hasDerivAt P0 P1 P2 P3 s)
    have hmem := solveCubicDerivativeZeros_complete _ _ _ s hA hB (le_of_lt hsin.1)
      (le_of_lt hsin.2) hderiv hab
    exact ⟨s, Or.inr (Or.inr hmem), hmin t ⟨ht0, ht1⟩⟩

/-- Helper: the middle two points of every window are original control
points. -/
theorem window_endpoints_mem (pts : List Point) (h3 : 3 ≤ pts.length)
    (w : Point × Point × Point × Point) (hw : w ∈ windows pts) :
    w.2.1 ∈ pts ∧ w.2.2.1 ∈ pts := by
  have hn : 0 < pts.length := by omega
  simp only [windows] at hw
  obtain ⟨k, hk, rfl⟩ := List.mem_map.1 hw
  rw [List.mem_range, allPointsOf_length] at hk
  have hk2 : k < pts.length := by omega
  constructor
  · show (allPointsOf pts).getD (k + 1) default ∈ pts
    rw [allPointsOf_getD pts h3 (k + 1) (by omega)]
    have hlt : (k + 1 + pts.length - 1) % pts.length < pts.length := Nat.mod_lt _ hn
    rw [List.getD_eq_getElem pts default hlt]
    exact List.getElem_mem _
  · show (allPointsOf pts).getD (k + 2) default ∈ pts
    rw [allPointsOf_getD pts h3 (k + 2) (by omega)]
    have hlt : (k + 2 + pts.length - 1) % pts.length < pts.length := Nat.mod_lt _ hn
    rw [List.getD_eq_getElem pts default hlt]
    exact List.getElem_mem _

/-- C6: for every spline with at least 3 points whose derivative
coefficients respect the epsilon guards exactly (a coefficient below the
1e-6 threshold is exactly zero), the bounds computed by
`calculateSplineBounds` — and hence the bounds `calculateMinimalGridArea`
computes for a Spline outline, `outlineBounds` unfolding to
`calculateSplineBounds` on the world-transformed control points — contain
every point of every cubic segment of the closed curve, not just the
control points: the curve values at the reported derivative roots join
the control points in the candidate set, and every curve point at any
parameter `t ∈ [0,1]` lies inside the returned box. -/
theorem calculateSplineBounds_contains_curve (pts : List Point) (h3 : 3 ≤ pts.length)
    (hnd : ∀ w ∈ windows pts, windowNondegenX w ∧ windowNondegenY w) :
    (∀ (oid : String) (pos : Point) (rotv : ℝ) (d : Option ℝ) (pts0 : List Point),
        outlineBounds ⟨oid, pos, rotv, d, .spline pts0⟩ =
          calculateSplineBounds (pts0.map fun p => transformPoint p pos rotv)) ∧
    ∀ w ∈ windows pts, ∀ t : ℝ, 0 ≤ t → t ≤ 1 →
      (calculateSplineBounds pts).minX ≤ windowCurveX w t ∧
      windowCurveX w t ≤ (calculateSplineBounds pts).maxX ∧
      (calculateSplineBounds pts).minY ≤ windowCurveY w t ∧
      windowCurveY w t ≤ (calculateSplineBounds pts).maxY := by
  refine ⟨fun _ _ _ _ _ => rfl, ?_⟩
  intro w hw t ht0 ht1
  obtain ⟨hndX, hndY⟩ := hnd w hw
  simp only [windowNondegenX] at hndX
  simp only [windowNondegenY] at hndY
  obtain ⟨hAx, hBx⟩ := hndX
  obtain ⟨hAy, hBy⟩ := hndY
  obtain ⟨hp1, hp2⟩ := window_endpoints_mem pts h3 w hw
  have hf0x : evaluateCubicBezier w.2.1.x (catmullToBezier w.1 w.2.1 w.2.2.1 w.2.2.2).1.x
      (catmullToBezier w.1 w.2.1 w.2.2.1 w.2.2.2).2.x w.2.2.1.x 0 = w.2.1.x := by
    norm_num [evaluateCubicBezier]
  have hf1x : evaluateCubicBezier w.2.1.x (catmullToBezier w.1 w.2.1 w.2.2.1 w.2.2.2).1.x
      (catmullToBezier w.1 w.2.1 w.2.2.1 w.2.2.2).2.x w.2.2.1.x 1 = w.2.2.1.x := by
    norm_num [evaluateCubicBezier]
  have hf0y : evaluateCubicBezier w.2.1.y (catmullToBezier w.1 w.2.1 w.2.2.1 w.2.2.2).1.y
      (catmullToBezier w.1 w.2.1 w.2.2.1 w.2.2.2).2.y w.2.2.1.y 0 = w.2.1.y := by
    norm_num [evaluateCubicBezier]
  have hf1y : evaluateCubicBezier w.2.1.y (catmullToBezier w.1 w.2.1 w.2.2.1 w.2.2.2).1.y
      (catmullToBezier w.1 w.2.1 w.2.2.1 w.2.2.2).2.y w.2.2.1.y 1 = w.2.2.1.y := by
    norm_num [evaluateCubicBezier]
  have hmem1x : w.2.1.x ∈ pts.map (·.x) ++ (windows pts).flatMap windowExtremaX :=
    List.mem_append_left _ (List.mem_map.2 ⟨w.2.1, hp1, rfl⟩)
  have hmem2x : w.2.2.1.x ∈ pts.map (·.x) ++ (windows pts).flatMap windowExtremaX :=
    List.mem_append_left _ (List.mem_map.2 ⟨w.2.2.1, hp2, rfl⟩)
  have hmem1y : w.2.1.y ∈ pts.map (·.y) ++ (windows pts).flatMap windowExtremaY :=
    List.mem_append_left _ (List.mem_map.2 ⟨w.2.1, hp1, rfl⟩)
  have hmem2y : w.2.2.1.y ∈ pts.map (·.y) ++ (windows pts).flatMap windowExtremaY :=
    List.mem_append_left _ (List.mem_map.2 ⟨w.2.2.1, hp2, rfl⟩)
  refine ⟨?_, ?_, ?_, ?_⟩
  · show listMin (pts.map (·.x) ++ (windows pts).flatMap windowExtremaX) ≤ windowCurveX w t
    obtain ⟨s, hs, hle⟩ := bezier_ge_min w.2.1.x
      (catmullToBezier w.1 w.2.1 w.2.2.1 w.2.2.2).1.x
      (catmullToBezier w.1 w.2.1 w.2.2.1 w.2.2.2).2.x w.2.2.1.x hAx hBx t ht0 ht1
    refine le_trans ?_ hle
    rcases hs with rfl | rfl | hmem
    · rw [hf0x]
      exact listMin_le_of_mem hmem1x
    · rw [hf1x]
      exact listMin_le_of_mem hmem2x
    · refine listMin_le_of_mem (List.mem_append_right _ (List.mem_flatMap.2
        ⟨w, hw, ?_⟩))
      exact List.mem_map.2 ⟨s, hmem, rfl⟩
  · show windowCurveX w t ≤ listMax (pts.map (·.x) ++ (windows pts).flatMap windowExtremaX)
    obtain ⟨s, hs, hle⟩ := bezier_le_max w.2.1.x
      (catmullToBezier w.1 w.2.1 w.2.2.1 w.2.2.2).1.x
      (catmullToBezier w.1 w.2.1 w.2.2.1 w.2.2.2).2.x w.2.2.1.x hAx hBx t ht0 ht1
    refine le_trans hle ?_
    rcases hs with rfl | rfl | hmem
    · rw [hf0x]
      exact le_listMax_of_mem hmem1x
    · rw [hf1x]
      exact le_listMax_of_mem hmem2x
    · refine le_listMax_of_mem (List.mem_append_right _ (List.mem_flatMap.2
        ⟨w, hw, ?_⟩))
      exact List.mem_map.2 ⟨s, hmem, rfl⟩
  · show listMin (pts.map (·.y) ++ (windows pts).flatMap windowExtremaY) ≤ windowCurveY w t
    obtain ⟨s, hs, hle⟩ := bezier_ge_min w.2.1.y
      (catmullToBezier w.1 w.2.1 w.2.2.1 w.2.2.2).1.y
      (catmullToBezier w.1 w.2.1 w.2.2.1 w.2.2.2).2.y w.2.2.1.y hAy hBy t ht0 ht1
    refine le_trans ?_ hle
    rcases hs with rfl | rfl | hmem
    · rw [hf0y]
      exact listMin_le_of_mem hmem1y
    · rw [hf1y]
      exact listMin_le_of_mem hmem2y
    · refine listMin_le_of_mem (List.mem_append_right _ (List.mem_flatMap.2
        ⟨w, hw, ?_⟩))
      exact List.mem_map.2 ⟨s, hmem, rfl⟩
  · show windowCurveY w t ≤ listMax (pts.map (·.y) ++ (windows pts).flatMap windowExtremaY)
    obtain ⟨s, hs, hle⟩ := bezier_le_max w.2.1.y
      (catmullToBezier w.1 w.2.1 w.2.2.1 w.2.2.2).1.y
      (catmullToBezier w.1 w.2.1 w.2.2.1 w.2.2.2).2.y w.2.2.1.y hAy hBy t ht0 ht1
    refine le_trans hle ?_
    rcases hs with rfl | rfl | hmem
    · rw [hf0y]
      exact le_listMax_of_mem hmem1y
    · rw [hf1y]
      exact le_listMax_of_mem hmem2y
    · refine le_listMax_of_mem (List.mem_append_right _ (List.mem_flatMap.2
        ⟨w, hw, ?_⟩))
      exact List.mem_map.2 ⟨s, hmem, rfl⟩

/-- Helper: with three equal chord parameters the Catmull-Rom control
points reduce to the uniform tangent formula. -/
theorem catmullToBezier_equal_chords (p0 p1 p2 p3 : Point) (L : ℝ) (hL : 0 < L)
    (h01 : getT p0 p1 = L) (h12 : getT p1 p2 = L) (h23 : getT p2 p3 = L) :
    catmullToBezier p0 p1 p2 p3 =
      (⟨p1.x + (p2.x - p0.x) / 6, p1.y + (p2.y - p0.y) / 6⟩,
       ⟨p2.x - (p3.x - p1.x) / 6, p2.y - (p3.y - p1.y) / 6⟩) := by
  have hL0 : L ≠ 0 := ne_of_gt hL
  simp only [catmullToBezier, h01, h12, h23]
  rw [Prod.mk.injEq]
  constructor <;> (rw [Point.mk.injEq]; constructor <;> (field_simp; ring))

/-- Witness for C6 on a 10mm square spline (all chords equal, so the
degeneracy guards are exactly respected on every window). -/
theorem calculateSplineBounds_contains_curve_witness :
    (∀ (oid : String) (pos : Point) (rotv : ℝ) (d : Option ℝ) (pts0 : List Point),
        outlineBounds ⟨oid, pos, rotv, d, .spline pts0⟩ =
          calculateSplineBounds (pts0.map fun p => transformPoint p pos rotv)) ∧
    ∀ w ∈ windows [(⟨0, 0⟩ : Point), ⟨10, 0⟩, ⟨10, 10⟩, ⟨0, 10⟩], ∀ t : ℝ, 0 ≤ t → t ≤ 1 →
      (calculateSplineBounds [(⟨0, 0⟩ : Point), ⟨10, 0⟩, ⟨10, 10⟩, ⟨0, 10⟩]).minX ≤
        windowCurveX w t ∧
      windowCurveX w t ≤
        (calculateSplineBounds [(⟨0, 0⟩ : Point), ⟨10, 0⟩, ⟨10, 10⟩, ⟨0, 10⟩]).maxX ∧
      (calculateSplineBounds [(⟨0, 0⟩ : Point), ⟨10, 0⟩, ⟨10, 10⟩, ⟨0, 10⟩]).minY ≤
        windowCurveY w t ∧
      windowCurveY w t ≤
        (calculateSplineBounds [(⟨0, 0⟩ : Point), ⟨10, 0⟩, ⟨10, 10⟩, ⟨0, 10⟩]).maxY :=
  calculateSplineBounds_contains_curve [⟨0, 0⟩, ⟨10, 0⟩, ⟨10, 10⟩, ⟨0, 10⟩]
    (by norm_num)
    (by
      intro w hw
      have hwins : windows [(⟨0, 0⟩ : Point), ⟨10, 0⟩, ⟨10, 10⟩, ⟨0, 10⟩] =
          [(⟨0, 10⟩, ⟨0, 0⟩, ⟨10, 0⟩, ⟨10, 10⟩),
           (⟨0, 0⟩, ⟨10, 0⟩, ⟨10, 10⟩, ⟨0, 10⟩),
           (⟨10, 0⟩, ⟨10, 10⟩, ⟨0, 10⟩, ⟨0, 0⟩),
           (⟨10, 10⟩, ⟨0, 10⟩, ⟨0, 0⟩, ⟨10, 0⟩)] := rfl
      rw [hwins] at hw
      have hL : (0 : ℝ) < (100 : ℝ) ^ (0.25 : ℝ) := Real.rpow_pos_of_pos (by norm_num) _
      have g30 : getT (⟨0, 10⟩ : Point) ⟨0, 0⟩ = (100 : ℝ) ^ (0.25 : ℝ) := by
        norm_num [getT]
      have g01 : getT (⟨0, 0⟩ : Point) ⟨10, 0⟩ = (100 : ℝ) ^ (0.25 : ℝ) := by
        norm_num [getT]
      have g12 : getT (⟨10, 0⟩ : Point) ⟨10, 10⟩ = (100 : ℝ) ^ (0.25 : ℝ) := by
        norm_num [getT]
      have g23 : getT (⟨10, 10⟩ : Point) ⟨0, 10⟩ = (100 : ℝ) ^ (0.25 : ℝ) := by
        norm_num [getT]
      simp only [List.mem_cons, List.not_mem_nil, or_false] at hw
      rcases hw with rfl | rfl | rfl | rfl
      · have hcb := catmullToBezier_equal_chords _ _ _ _ _ hL g30 g01 g12
        refine ⟨?_, ?_⟩ <;>
          norm_num [windowNondegenX, windowNondegenY, hcb, bezierCoeffA, bezierCoeffB]
      · have hcb := catmullToBezier_equal_chords _ _ _ _ _ hL g01 g12 g23
        refine ⟨?_, ?_⟩ <;>
          norm_num [windowNondegenX, windowNondegenY, hcb, bezierCoeffA, bezierCoeffB]
      · have hcb := catmullToBezier_equal_chords _ _ _ _ _ hL g12 g23 g30
        refine ⟨?_, ?_⟩ <;>
          norm_num [windowNondegenX, windowNondegenY, hcb, bezierCoeffA, bezierCoeffB]
      · have hcb := catmullToBezier_equal_chords _ _ _ _ _ hL g23 g30 g01
        refine ⟨?_, ?_⟩ <;>
          norm_num [windowNondegenX, windowNondegenY, hcb, bezierCoeffA, bezierCoeffB])

end

end GridBug
